import Mathlib

set_option maxHeartbeats 1000000

namespace FilmClub

/-!
Shallow embedding of the film-club sheet-to-JSON reconciliation engine
(`sync_sheet_to_json.py`).  Python dicts holding JSON data are modelled by
structures with `Option`-valued fields (`none` = key absent), Python `None`
inside a present key by a nested `Option`, pandas `NaN` cells by `none`,
and Python floats arising from `float(...)` on sheet cells by `ℚ`.
-/

/-- Python truthiness of an optional string value (`None` and `""` are falsy). -/
def pyTruthy : Option String → Bool
  | none => false
  | some s => !s.isEmpty

/-- `dict.get(key)`: a key that is absent or holds `None` both read as `None`. -/
def pyGet : Option (Option String) → Option String
  | none => none
  | some v => v

/-- ASCII lower-case letter test, the `[a-z]` class of the regex in `to_camel_case`. -/
def isLowerAlpha (c : Char) : Bool := 97 ≤ c.toNat && c.toNat ≤ 122

/-- ASCII upper-case letter test. -/
def isUpperAlpha (c : Char) : Bool := 65 ≤ c.toNat && c.toNat ≤ 90

/-- ASCII upper-casing of a character, `x.group(1).upper()` in `to_camel_case`. -/
def upChar (c : Char) : Char :=
  if isLowerAlpha c then Char.ofNat (c.toNat - 32) else c

/-- ASCII lower-casing of a character, `text[0].lower()` in `to_camel_case`. -/
def lowChar (c : Char) : Char :=
  if isUpperAlpha c then Char.ofNat (c.toNat + 32) else c

/-- Python `str.lower()` (ASCII model), used for `r['user'].lower()`. -/
def lowerStr (s : String) : String := ⟨s.data.map lowChar⟩

/-- `re.sub(r"_([a-z])", lambda x: x.group(1).upper(), text)`: scan left to
right; an underscore immediately followed by a lower-case letter is replaced
by the upper-cased letter, anything else is copied. -/
def camelSub : List Char → List Char
  | [] => []
  | [c] => [c]
  | a :: b :: rest =>
    if a = '_' ∧ isLowerAlpha b then upChar b :: camelSub rest
    else a :: camelSub (b :: rest)

/-- `to_camel_case` on the character list of the input string: empty text maps
to empty text, otherwise the regex substitution runs and the first character is
lower-cased. -/
def tccList : List Char → List Char
  | [] => []
  | x :: xs =>
    match camelSub (x :: xs) with
    | [] => []
    | c :: rest => lowChar c :: rest

/-- `to_camel_case` from the source: converts PascalCase or snake_case text to
camelCase. -/
def to_camel_case (s : String) : String := ⟨tccList s.data⟩

/-- JSON-like values as handled by `transform_keys_to_camel_case`: mappings,
sequences and scalars (scalars are opaque here, the transformer never touches
them). -/
inductive JData where
  | atom : String → JData
  | arr : List JData → JData
  | obj : List (String × JData) → JData

/-- Last value bound to key `k` in `(k, v) :: rest` (Python dict semantics:
a repeated key overwrites the value). -/
def lastVal (k : String) (v : JData) : List (String × JData) → JData
  | [] => v
  | (k2, v2) :: rest => if k2 = k then lastVal k v2 rest else lastVal k v rest

/-- Python dict construction from a pair sequence: the first occurrence of a
key fixes its position, the last occurrence fixes its value. -/
def pyDict : List (String × JData) → List (String × JData)
  | [] => []
  | (k, v) :: rest =>
    (k, lastVal k v rest) :: pyDict (rest.filter (fun p => p.1 ≠ k))
termination_by l => l.length
decreasing_by
  simp only [List.length_cons]
  exact Nat.lt_succ_of_le (List.length_filter_le _ _)

mutual

/-- `transform_keys_to_camel_case` from the source: converts keys in API
responses from PascalCase/snake_case to camelCase, recursing through mappings
and sequences and leaving scalars unchanged. -/
def transform_keys_to_camel_case : JData → JData
  | .atom a => .atom a
  | .arr l => .arr (transformJList l)
  | .obj kvs => .obj (pyDict (transformJPairs kvs))

/-- Elementwise transformation of a JSON sequence. -/
def transformJList : List JData → List JData
  | [] => []
  | d :: rest => transform_keys_to_camel_case d :: transformJList rest

/-- Pairwise transformation of dict items (key via `to_camel_case`, value
recursively). -/
def transformJPairs : List (String × JData) → List (String × JData)
  | [] => []
  | (k, v) :: rest =>
    (to_camel_case k, transform_keys_to_camel_case v) :: transformJPairs rest

end

example : to_camel_case "snake_case_text" = "snakeCaseText" := by decide
example : to_camel_case "PascalCase" = "pascalCase" := by decide
example : to_camel_case "imdbID" = "imdbID" := by decide
example : to_camel_case "" = "" := by decide
example : to_camel_case "a__b" = "a_B" := by decide

/-! ### Character-level facts about the ASCII case maps -/

theorem toNat_ofNat_valid (n : Nat) (h : n < 55296) : (Char.ofNat n).toNat = n := by
  have hv : n.isValidChar := Or.inl h
  simp [Char.ofNat, hv]
  rfl

theorem isLowerAlpha_bounds {c : Char} (h : isLowerAlpha c = true) :
    97 ≤ c.toNat ∧ c.toNat ≤ 122 := by
  simpa [isLowerAlpha] using h

theorem isUpperAlpha_bounds {c : Char} (h : isUpperAlpha c = true) :
    65 ≤ c.toNat ∧ c.toNat ≤ 90 := by
  simpa [isUpperAlpha] using h

theorem upChar_toNat {c : Char} (h : isLowerAlpha c = true) :
    (upChar c).toNat = c.toNat - 32 := by
  have hb := isLowerAlpha_bounds h
  rw [upChar, if_pos h]
  exact toNat_ofNat_valid _ (by omega)

theorem isLowerAlpha_upChar {c : Char} (h : isLowerAlpha c = true) :
    isLowerAlpha (upChar c) = false := by
  have hb := isLowerAlpha_bounds h
  have ht := upChar_toNat h
  have h1 : decide (97 ≤ (upChar c).toNat) = false := decide_eq_false (by omega)
  simp [isLowerAlpha, h1]

theorem upChar_ne_underscore {c : Char} (h : isLowerAlpha c = true) :
    upChar c ≠ '_' := by
  intro he
  have hb := isLowerAlpha_bounds h
  have ht := upChar_toNat h
  have : (upChar c).toNat = 95 := by rw [he]; rfl
  omega

theorem lowChar_toNat {c : Char} (h : isUpperAlpha c = true) :
    (lowChar c).toNat = c.toNat + 32 := by
  have hb := isUpperAlpha_bounds h
  rw [lowChar, if_pos h]
  exact toNat_ofNat_valid _ (by omega)

theorem lowChar_of_not_upper {c : Char} (h : isUpperAlpha c = false) :
    lowChar c = c := by
  rw [lowChar, if_neg (by simp [h])]

theorem lowChar_lowChar (c : Char) : lowChar (lowChar c) = lowChar c := by
  by_cases h : isUpperAlpha c = true
  · have hb := isUpperAlpha_bounds h
    have ht := lowChar_toNat h
    have hnu : isUpperAlpha (lowChar c) = false := by
      have h2 : decide ((lowChar c).toNat ≤ 90) = false := decide_eq_false (by omega)
      simp [isUpperAlpha, h2]
    exact lowChar_of_not_upper hnu
  · have hc := lowChar_of_not_upper (Bool.eq_false_iff.mpr h)
    rw [hc, hc]

theorem lowChar_underscore {c : Char} (h : lowChar c = '_') : c = '_' := by
  by_cases hu : isUpperAlpha c = true
  · exfalso
    have hb := isUpperAlpha_bounds hu
    have ht := lowChar_toNat hu
    have : (lowChar c).toNat = 95 := by rw [h]; rfl
    omega
  · rwa [lowChar, if_neg (by simpa using hu)] at h

/-! ### Idempotence of the key transcoder -/

/-- The pattern the regex in `to_camel_case` rewrites: an underscore directly
followed by a lower-case letter. -/
def badPair (a b : Char) : Bool := decide (a = '_') && isLowerAlpha b

/-- No occurrence of the regex pattern anywhere in the character list. -/
def noPat : List Char → Bool
  | a :: b :: rest => !badPair a b && noPat (b :: rest)
  | _ => true

theorem pairRec {P : List Char → Prop} (h0 : P []) (h1 : ∀ c, P [c])
    (h2 : ∀ a b l, P (b :: l) → P l → P (a :: b :: l)) : ∀ l, P l
  | [] => h0
  | [c] => h1 c
  | a :: b :: l => h2 a b l (pairRec h0 h1 h2 (b :: l)) (pairRec h0 h1 h2 l)

theorem camelSub_ne_nil : ∀ {l : List Char}, l ≠ [] → camelSub l ≠ [] := by
  intro l
  match l with
  | [] => intro h; exact absurd rfl h
  | [c] => intro _; simp [camelSub]
  | a :: b :: rest =>
    intro _
    rw [camelSub]
    split <;> simp

theorem camelSub_head_lower :
    ∀ l c cs, camelSub l = c :: cs → isLowerAlpha c = true → l.head? = some c := by
  intro l
  match l with
  | [] => intro c cs h _; simp [camelSub] at h
  | [d] =>
    intro c cs h _
    simp only [camelSub, List.cons.injEq] at h
    simp [h.1]
  | a :: b :: rest =>
    intro c cs h hc
    rw [camelSub] at h
    split at h
    · rename_i hcond
      rw [List.cons.injEq] at h
      exfalso
      have hl := isLowerAlpha_upChar hcond.2
      rw [h.1] at hl
      simp [hl] at hc
    · rw [List.cons.injEq] at h
      simp [h.1]

theorem noPat_camelSub : ∀ l, noPat (camelSub l) = true := by
  refine pairRec ?_ ?_ ?_
  · simp [camelSub, noPat]
  · intro c; simp [camelSub, noPat]
  · intro a b l ih1 ih2
    rw [camelSub]
    split
    · rename_i hcond
      cases hx : camelSub l with
      | nil => simp [noPat]
      | cons x xs =>
        rw [hx] at ih2
        have hbp : badPair (upChar b) x = false := by
          simp [badPair, upChar_ne_underscore hcond.2]
        simp [noPat, hbp, ih2]
    · rename_i hcond
      cases hx : camelSub (b :: l) with
      | nil => simp [noPat]
      | cons x xs =>
        rw [hx] at ih1
        have hbp : badPair a x = false := by
          by_cases ha : a = '_'
          · have hb : isLowerAlpha b = false := by
              cases hbo : isLowerAlpha b with
              | false => rfl
              | true => exact absurd ⟨ha, hbo⟩ hcond
            by_cases hlx : isLowerAlpha x = true
            · have hh := camelSub_head_lower (b :: l) x xs hx hlx
              simp only [List.head?] at hh
              have hxb : b = x := by injection hh
              rw [← hxb] at hlx
              rw [hlx] at hb
              exact absurd hb (by simp)
            · have hxf : isLowerAlpha x = false := Bool.eq_false_iff.mpr hlx
              simp [badPair, hxf]
          · simp [badPair, ha]
        simp [noPat, hbp, ih1]

theorem camelSub_of_noPat : ∀ l, noPat l = true → camelSub l = l := by
  refine pairRec ?_ ?_ ?_
  · intro _; rfl
  · intro c _; rfl
  · intro a b l ih1 _ h
    simp only [noPat, Bool.and_eq_true, Bool.not_eq_true'] at h
    rw [camelSub]
    split
    · rename_i hcond
      exfalso
      have : badPair a b = true := by
        simp [badPair, hcond.1, hcond.2]
      rw [h.1] at this
      exact absurd this (by simp)
    · rw [ih1 h.2]

theorem noPat_cons_lowChar (c : Char) (rest : List Char)
    (h : noPat (c :: rest) = true) : noPat (lowChar c :: rest) = true := by
  cases rest with
  | nil => rfl
  | cons x xs =>
    simp only [noPat, Bool.and_eq_true, Bool.not_eq_true'] at h ⊢
    refine ⟨?_, h.2⟩
    by_cases hl : lowChar c = '_'
    · have hc := lowChar_underscore hl
      rw [hc] at h ⊢
      simpa using h.1
    · simp [badPair, hl]

theorem tccList_idem : ∀ l, tccList (tccList l) = tccList l := by
  intro l
  cases l with
  | nil => rfl
  | cons x xs =>
    cases hx : camelSub (x :: xs) with
    | nil => exact absurd hx (camelSub_ne_nil (by simp))
    | cons c rest =>
      have hnp : noPat (c :: rest) = true := by
        have := noPat_camelSub (x :: xs)
        rwa [hx] at this
      have hnp2 : noPat (lowChar c :: rest) = true := noPat_cons_lowChar c rest hnp
      have e1 : tccList (x :: xs) = lowChar c :: rest := by
        rw [tccList, hx]
      have e2 : tccList (lowChar c :: rest) = lowChar (lowChar c) :: rest := by
        rw [tccList, camelSub_of_noPat _ hnp2]
      rw [e1, e2, lowChar_lowChar]

theorem tcc_idem (s : String) : to_camel_case (to_camel_case s) = to_camel_case s := by
  show (⟨tccList (String.data ⟨tccList s.data⟩)⟩ : String) = ⟨tccList s.data⟩
  rw [show (String.data ⟨tccList s.data⟩) = tccList s.data from rfl, tccList_idem]

theorem lastVal_mem : ∀ (rest : List (String × JData)) (k : String) (v : JData),
    (k, lastVal k v rest) = (k, v) ∨ (k, lastVal k v rest) ∈ rest
  | [], _, _ => Or.inl rfl
  | (k2, v2) :: rest', k, v => by
    rw [lastVal]
    split
    · rename_i h
      rcases lastVal_mem rest' k v2 with h1 | h1
      · right
        rw [h1, ← h]
        exact List.mem_cons_self _ _
      · exact Or.inr (List.mem_cons_of_mem _ h1)
    · rcases lastVal_mem rest' k v with h1 | h1
      · exact Or.inl h1
      · exact Or.inr (List.mem_cons_of_mem _ h1)

theorem mem_pyDict : ∀ (l : List (String × JData)) (p : String × JData),
    p ∈ pyDict l → p ∈ l
  | [], p, h => by simp [pyDict] at h
  | (k, v) :: rest, p, h => by
    rw [pyDict] at h
    rcases List.mem_cons.mp h with h1 | h1
    · rcases lastVal_mem rest k v with h2 | h2
      · rw [h1, h2]; exact List.mem_cons_self _ _
      · rw [h1]; exact List.mem_cons_of_mem _ h2
    · have hm := mem_pyDict (rest.filter (fun p => p.1 ≠ k)) p h1
      exact List.mem_cons_of_mem _ (List.mem_of_mem_filter hm)
termination_by l => l.length
decreasing_by
  simp only [List.length_cons]
  exact Nat.lt_succ_of_le (List.length_filter_le _ _)

theorem nodup_keys_pyDict : ∀ (l : List (String × JData)),
    ((pyDict l).map Prod.fst).Nodup
  | [] => by simp [pyDict]
  | (k, v) :: rest => by
    rw [pyDict]
    simp only [List.map_cons, List.nodup_cons]
    constructor
    · intro hmem
      rcases List.mem_map.mp hmem with ⟨p, hp, hpk⟩
      have hpl := mem_pyDict _ p hp
      have hne := List.of_mem_filter hpl
      simp only [decide_eq_true_eq] at hne
      exact hne hpk
    · exact nodup_keys_pyDict (rest.filter fun p => p.1 ≠ k)
termination_by l => l.length
decreasing_by
  simp only [List.length_cons]
  exact Nat.lt_succ_of_le (List.length_filter_le _ _)

theorem lastVal_of_not_mem : ∀ (rest : List (String × JData)) (k : String) (v : JData),
    k ∉ rest.map Prod.fst → lastVal k v rest = v
  | [], _, _, _ => rfl
  | (k2, v2) :: rest', k, v, h => by
    rw [lastVal]
    have hk2 : ¬ (k2 = k) := by
      intro he
      exact h (by simp [he])
    rw [if_neg hk2]
    exact lastVal_of_not_mem rest' k v (by
      intro hm
      exact h (by simp [hm]))

theorem pyDict_eq_self : ∀ (l : List (String × JData)),
    (l.map Prod.fst).Nodup → pyDict l = l
  | [], _ => by rw [pyDict]
  | (k, v) :: rest, h => by
    rw [pyDict]
    simp only [List.map_cons, List.nodup_cons] at h
    have hl : lastVal k v rest = v := lastVal_of_not_mem rest k v h.1
    have hf : rest.filter (fun p => p.1 ≠ k) = rest := by
      apply List.filter_eq_self.mpr
      intro p hp
      simp only [decide_eq_true_eq]
      intro hpk
      exact h.1 (hpk ▸ List.mem_map_of_mem Prod.fst hp)
    rw [hl, hf, pyDict_eq_self rest h.2]

theorem transformJPairs_fix : ∀ (l : List (String × JData)),
    (∀ p ∈ l, to_camel_case p.1 = p.1 ∧ transform_keys_to_camel_case p.2 = p.2) →
    transformJPairs l = l
  | [], _ => rfl
  | (k, v) :: rest, h => by
    rw [transformJPairs]
    have h1 := h (k, v) (List.mem_cons_self _ _)
    rw [h1.1, h1.2, transformJPairs_fix rest (fun p hp => h p (List.mem_cons_of_mem _ hp))]

mutual

theorem transform_idem : ∀ d,
    transform_keys_to_camel_case (transform_keys_to_camel_case d) =
      transform_keys_to_camel_case d
  | .atom a => rfl
  | .arr l => by
    simp only [transform_keys_to_camel_case]
    rw [transformJList_idem l]
  | .obj kvs => by
    simp only [transform_keys_to_camel_case]
    have hfix : ∀ p ∈ pyDict (transformJPairs kvs),
        to_camel_case p.1 = p.1 ∧ transform_keys_to_camel_case p.2 = p.2 := by
      intro p hp
      exact transformJPairs_fixpoint kvs p (mem_pyDict _ p hp)
    rw [transformJPairs_fix _ hfix, pyDict_eq_self _ (nodup_keys_pyDict _)]

theorem transformJList_idem : ∀ l,
    transformJList (transformJList l) = transformJList l
  | [] => rfl
  | d :: rest => by
    simp only [transformJList]
    rw [transform_idem d, transformJList_idem rest]

theorem transformJPairs_fixpoint : ∀ (kvs : List (String × JData)) (p : String × JData),
    p ∈ transformJPairs kvs →
    to_camel_case p.1 = p.1 ∧ transform_keys_to_camel_case p.2 = p.2
  | [], p, h => by simp [transformJPairs] at h
  | (k, v) :: rest, p, h => by
    rw [transformJPairs] at h
    rcases List.mem_cons.mp h with h1 | h1
    · rw [h1]
      exact ⟨tcc_idem k, transform_idem v⟩
    · exact transformJPairs_fixpoint rest p h1

end

/-! ### Data model of the reconciliation engine

`Option`-valued fields model dict keys that may be absent; a nested
`Option String` models a present key holding `None`.  pandas `NaN` cells
become `none` (after `get_sheet_data`'s `.where(pd.notnull(df), None)`
conversion every missing cell reads as `None`). -/

/-- Normalized score stored in a rating entry: `None`, an integer, a
non-integral number, or the raw text when `float(...)` fails. -/
inductive ScoreVal where
  | null : ScoreVal
  | int : Int → ScoreVal
  | dec : ℚ → ScoreVal
  | str : String → ScoreVal
deriving DecidableEq, Repr

/-- One member's rating entry, `{'user': ..., 'score': ..., 'blurb': ...}`. -/
structure RatingEntry where
  user : String
  score : ScoreVal
  blurb : Option String
deriving DecidableEq, Repr

/-- The `movieClubInfo` sub-dict.  Each field is `none` when the key is
absent, `some none` when the key holds `None`. -/
structure ClubInfo where
  selector : Option (Option String) := none
  watchDate : Option (Option String) := none
  trophyNotes : Option (Option String) := none
  trophyInfo : Option (Option String) := none
  clubRatings : Option (List RatingEntry) := none
deriving DecidableEq, Repr

/-- One catalog record (a film dict).  `imdbID` is `none` when the record has
no `imdbID` key; `fields` holds the open provider-sourced mapping (camelCase
keys); `tmdbFetched` is the `tmdbCrewDataFetched` flag. -/
structure Film where
  imdbID : Option String := none
  fields : List (String × String) := []
  tmdbFetched : Option Bool := none
  movieClubInfo : Option ClubInfo := none
deriving DecidableEq, Repr

/-- Per-member sheet cells of one row: whether the `{user}_rating` /
`{user}_blurb` columns exist, and their values (`none` = NaN). -/
structure UserCells where
  ratingPresent : Bool := false
  rating : Option String := none
  blurbPresent : Bool := false
  blurb : Option String := none

/-- One sheet row.  `watch_date`/`selected_by` conflate an absent column with
a NaN cell (both read as `None` through `row.get`); `trophy_notes` keeps the
column-presence bit because the code tests `'trophy_notes' in row`. -/
structure Row where
  imdb_id : Option String := none
  watch_date : Option String := none
  selected_by : Option String := none
  trophyPresent : Bool := false
  trophy_notes : Option String := none
  cells : String → UserCells := fun _ => {}

/-- `row.get(f'{user}_rating')`: `None` when the column is absent. -/
def Row.ratingVal (row : Row) (u : String) : Option String :=
  if (row.cells u).ratingPresent then (row.cells u).rating else none

/-- `row.get(f'{user}_blurb')`: `None` when the column is absent. -/
def Row.blurbVal (row : Row) (u : String) : Option String :=
  if (row.cells u).blurbPresent then (row.cells u).blurb else none

/-- `row.get('trophy_notes')`: `None` when the column is absent. -/
def Row.trophyVal (row : Row) : Option String :=
  if row.trophyPresent then row.trophy_notes else none

/-- Camel-cased OMDB payload: the `imdbID` key (if present) and the remaining
metadata fields. -/
structure OmdbData where
  imdbID : Option String := none
  fields : List (String × String) := []
deriving DecidableEq, Repr

/-- Outcome of the OMDB HTTP interaction for one identifier, before the
wrapper collapses failures to `None`: a parsed body with `Response == "True"`,
a transport failure, a non-success HTTP status, a body with
`Response != "True"`, or a JSON decode failure. -/
inductive OmdbResp where
  | ok : OmdbData → OmdbResp
  | transportError : OmdbResp
  | badStatus : OmdbResp
  | apiFalse : OmdbResp
  | decodeError : OmdbResp

/-- External world: credentials and the providers' responses per identifier.
`tmdb id` is the extracted crew mapping (`none` = any resolve/credits/network
failure or no match). -/
structure Env where
  omdbKey : Option String := none
  tmdbToken : Option String := none
  omdb : String → OmdbResp := fun _ => OmdbResp.transportError
  tmdb : String → Option (List (String × String)) := fun _ => none

/-- `get_omdb_film_details`: without a truthy key, or on any request/API/parse
failure, the function returns `None`; otherwise the camel-cased payload. -/
def get_omdb_film_details (apiKey : Option String) (resp : OmdbResp) : Option OmdbData :=
  if pyTruthy apiKey then
    match resp with
    | .ok d => some d
    | .transportError => none
    | .badStatus => none
    | .apiFalse => none
    | .decodeError => none
  else none

/-- `get_tmdb_film_details`: without a truthy bearer token the function
returns `None`; otherwise it yields whatever the two-step lookup produced
(`none` on any failure, or the extracted crew mapping). -/
def get_tmdb_film_details (token : Option String)
    (resp : Option (List (String × String))) : Option (List (String × String)) :=
  if pyTruthy token then resp else none

/-! ### Score normalization (`float(...)` model) -/

/-- Decimal digit test. -/
def isDigitChar (c : Char) : Bool := 48 ≤ c.toNat && c.toNat ≤ 57

/-- Value of a digit run. -/
def natOfDigits (l : List Char) : Nat :=
  l.foldl (fun a c => 10 * a + (c.toNat - 48)) 0

/-- Python `float(...)` on the character list of a decimal literal: optional
sign, then digits with an optional fractional part (at least one digit
overall); anything else raises `ValueError`, modelled as `none`.  The value
`sign * (ip + frac / 10 ^ |frac|)` is built with `mkRat` over integer
arithmetic. -/
def pyFloatCore (cs : List Char) : Option ℚ :=
  let signed : Int × List Char :=
    match cs with
    | '+' :: r => (1, r)
    | '-' :: r => (-1, r)
    | r => (1, r)
  let ip := signed.2.takeWhile isDigitChar
  let rest := signed.2.dropWhile isDigitChar
  match rest with
  | [] => if ip.isEmpty then none else some (mkRat (signed.1 * natOfDigits ip) 1)
  | '.' :: frac =>
    if frac.all isDigitChar then
      if ip.isEmpty ∧ frac.isEmpty then none
      else some (mkRat
        (signed.1 * (natOfDigits ip * 10 ^ frac.length + natOfDigits frac))
        (10 ^ frac.length))
    else none
  | _ => none

/-- Surrounding-whitespace stripping (Python `float` ignores it). -/
def pyStrip (cs : List Char) : List Char :=
  ((cs.dropWhile Char.isWhitespace).reverse.dropWhile Char.isWhitespace).reverse

/-- `float(s)` for a sheet cell (Python strips surrounding whitespace). -/
def pyFloat (s : String) : Option ℚ := pyFloatCore (pyStrip s.data)

/-- Lines 237–242: `new_score = None` for a NaN cell, else try
`float(...)`; a whole number is stored as `int`, a non-whole one as the
float, and on conversion failure the raw text is kept. -/
def normScore : Option String → ScoreVal
  | none => ScoreVal.null
  | some s =>
    match pyFloat s with
    | some q => if q.den = 1 then ScoreVal.int q.num else ScoreVal.dec q
    | none => ScoreVal.str s

example : normScore (some "8") = ScoreVal.int 8 := by decide
example : normScore (some "7.5") = ScoreVal.dec (mkRat 15 2) := by decide
example : normScore (some "n/a") = ScoreVal.str "n/a" := by decide
example : normScore none = ScoreVal.null := by decide
example : normScore (some "-2.25") = ScoreVal.dec (mkRat (-9) 4) := by decide
example : normScore (some "10.0") = ScoreVal.int 10 := by decide

/-! ### Generic last-match helpers

The Python code looks records and rating entries up through dicts built by
comprehensions, where a repeated key keeps the LAST object, and mutates that
object in place.  Functionally: find/update the last element of the list that
satisfies the predicate. -/

/-- Update the first element satisfying `p`. -/
def updateFirst {α : Type} (p : α → Bool) (g : α → α) : List α → List α
  | [] => []
  | a :: rest => if p a then g a :: rest else a :: updateFirst p g rest

/-- Update the last element satisfying `p` (dict-comprehension semantics). -/
def updateLast {α : Type} (p : α → Bool) (g : α → α) (l : List α) : List α :=
  (updateFirst p g l.reverse).reverse

/-- Find the last element satisfying `p`. -/
def findLast? {α : Type} (p : α → Bool) (l : List α) : Option α :=
  l.reverse.find? p

/-! ### Rating Merge Engine (lines 224–254) -/

/-- The fixed roster, `users = ["andy", "gabe", "jacob", "joey", "greg"]`. -/
def users : List String := ["andy", "gabe", "jacob", "joey", "greg"]

/-- Membership key: `r['user'].lower() == user.lower()` (the dict is keyed by
the lower-cased user). -/
def matchesUser (low : String) (e : RatingEntry) : Bool :=
  lowerStr e.user == low

/-- Lines 247–250: overwrite the entry's score and blurb only when one of
them differs from the new normalized values. -/
def scoreWrite (ns : ScoreVal) (bv : Option String) (e : RatingEntry) : RatingEntry :=
  if e.score = ns ∧ e.blurb = bv then e else { e with score := ns, blurb := bv }

/-- Lines 226–254, one roster member: skip when both columns are absent or
both cells are NaN; otherwise normalize score and blurb, then update the
member's existing entry in place (only when a value differs) or append a new
entry. -/
def userStep (row : Row) (es : List RatingEntry) (u : String) : List RatingEntry :=
  if (row.cells u).ratingPresent = false ∧ (row.cells u).blurbPresent = false then es
  else if row.ratingVal u = none ∧ row.blurbVal u = none then es
  else if es.any (matchesUser (lowerStr u)) then
    updateLast (matchesUser (lowerStr u))
      (scoreWrite (normScore (row.ratingVal u)) (row.blurbVal u)) es
  else es ++ [{ user := u, score := normScore (row.ratingVal u), blurb := row.blurbVal u }]

/-- The Rating Merge Engine: fold the per-member step over the fixed roster. -/
def mergeRatings (row : Row) (es : List RatingEntry) : List RatingEntry :=
  users.foldl (userStep row) es

/-- Lines 302–311, one roster member of a brand-new record: append an entry
when the row holds a rating or a blurb for the member. -/
def initUserStep (row : Row) (acc : List RatingEntry) (u : String) : List RatingEntry :=
  if (row.ratingVal u).isSome ∨ (row.blurbVal u).isSome then
    acc ++ [{ user := u, score := normScore (row.ratingVal u), blurb := row.blurbVal u }]
  else acc

/-- Lines 300–311: ratings of a brand-new record — one appended entry per
roster member that has a rating or blurb value in the row. -/
def initRatings (row : Row) : List RatingEntry :=
  users.foldl (initUserStep row) []

/-! ### ClubInfo updates for an existing record (lines 205–221) -/

/-- Line 208–209 on the stored `watchDate` value: overwrite only when the
sheet value is truthy and differs from what `.get('watchDate')` reads. -/
def updWatchVal (row : Row) (w : Option (Option String)) : Option (Option String) :=
  if pyTruthy row.watch_date ∧ pyGet w ≠ row.watch_date then some row.watch_date else w

/-- Line 211–212 on the stored `selector` value. -/
def updSelVal (row : Row) (s : Option (Option String)) : Option (Option String) :=
  if pyTruthy row.selected_by ∧ pyGet s ≠ row.selected_by then some row.selected_by else s

/-- Lines 214–218 on the stored `trophyNotes` value: whenever the column is
present, write the (possibly `None`) sheet value if it differs. -/
def updTrophyVal (row : Row) (t : Option (Option String)) : Option (Option String) :=
  if row.trophyPresent then
    (if pyGet t = row.trophy_notes then t else some row.trophy_notes)
  else t

/-- Lines 208–218: the three independent club-info field updates. -/
def updateClubInfo (row : Row) (ci : ClubInfo) : ClubInfo :=
  { ci with
    watchDate := updWatchVal row ci.watchDate
    selector := updSelVal row ci.selector
    trophyNotes := updTrophyVal row ci.trophyNotes }

/-- Line 206: the shell created when `movieClubInfo` is missing,
`{"clubRatings": [], "trophyInfo": None}`. -/
def shellClub : ClubInfo :=
  { trophyInfo := some none, clubRatings := some [] }

/-- Lines 220–221: ensure the `clubRatings` key exists. -/
def ensureRatings (ci : ClubInfo) : ClubInfo :=
  match ci.clubRatings with
  | none => { ci with clubRatings := some [] }
  | some _ => ci

/-- Lines 205–254 on the club-info block of an existing record: field
updates, `clubRatings` ensure, then the Rating Merge Engine. -/
def clubStep (row : Row) (ci : ClubInfo) : ClubInfo :=
  let ci1 := ensureRatings (updateClubInfo row ci)
  { ci1 with clubRatings := some (mergeRatings row (ci1.clubRatings.getD [])) }

/-! ### Enrichment (TMDb) steps -/

/-- `movie[key] = value` over the open field mapping: overwrite in place or
append. -/
def setField (fs : List (String × String)) (k v : String) : List (String × String) :=
  if fs.any (fun p => p.1 = k) then
    fs.map (fun p => if p.1 = k then (k, v) else p)
  else fs ++ [(k, v)]

/-- Lines 262–263 / 286–287: merge the extracted crew mapping into the film's
top-level fields. -/
def mergeCrew (f : Film) (crew : List (String × String)) : Film :=
  { f with fields := crew.foldl (fun fs p => setField fs p.1 p.2) f.fields }

/-- Lines 256–269: the conditional TMDb fetch for an existing record.
Returns the updated film and whether `get_tmdb_film_details` was invoked. -/
def tmdbStepExisting (env : Env) (id : String) (f : Film) : Film × Bool :=
  if pyTruthy env.tmdbToken then
    if f.tmdbFetched ≠ some true then
      (match get_tmdb_film_details env.tmdbToken (env.tmdb id) with
       | some crew => { mergeCrew f crew with tmdbFetched := some true }
       | none => { f with tmdbFetched := some true }, true)
    else (f, false)
  else (f, false)

/-- Lines 201–273: full processing of an existing record — club-info merge
then the conditional TMDb fetch. -/
def existingStep (env : Env) (row : Row) (id : String) (film : Film) : Film × Bool :=
  tmdbStepExisting env id
    { film with movieClubInfo := some (clubStep row (film.movieClubInfo.getD shellClub)) }

/-- Lines 295–298: `movieClubInfo` of a brand-new record. -/
def initClub (row : Row) : ClubInfo :=
  { selector := some row.selected_by
    watchDate := some row.watch_date
    trophyNotes := some row.trophyVal
    trophyInfo := some none
    clubRatings := some (initRatings row) }

/-- Lines 279–313: build a new record from the OMDB payload — flag `False`,
optional TMDb enrichment setting the flag `True`, then club info and initial
ratings.  Returns the record and whether TMDb was invoked. -/
def buildNewFilm (env : Env) (row : Row) (id : String) (d : OmdbData) : Film × Bool :=
  let e0 : Film :=
    { imdbID := d.imdbID, fields := d.fields, tmdbFetched := some false }
  let e1 :=
    if pyTruthy env.tmdbToken then
      (match get_tmdb_film_details env.tmdbToken (env.tmdb id) with
       | some crew => { mergeCrew e0 crew with tmdbFetched := some true }
       | none => { e0 with tmdbFetched := some true }, true)
    else (e0, false)
  ({ e1.1 with movieClubInfo := some (initClub row) }, e1.2)

/-! ### The pass (`update_json_from_sheet`) -/

/-- Mutable state threaded through the row loop: the (in-place mutated)
original catalog, the processed-id set, the pending new records, the change
flag, and the trace of identifiers TMDb was invoked for. -/
structure SyncState where
  films : List Film := []
  processed : List String := []
  newFilms : List Film := []
  changed : Bool := false
  tmdbLog : List String := []

/-- Membership test of the `films_dict` index: record carries this `imdbID`. -/
def fpred (id : String) (f : Film) : Bool := f.imdbID == some id

/-- Lines 188–317: processing of one sheet row whose identifier cell holds
`id` (truthiness and dedup checks, then the existing/new branch). -/
def processId (env : Env) (st : SyncState) (row : Row) (id : String) : SyncState :=
  if id = "" then st
  else if st.processed.contains id then st
  else
    match findLast? (fpred id) st.films with
    | some film =>
      let r := existingStep env row id film
      { st with
        films := updateLast (fpred id) (fun _ => r.1) st.films
        processed := st.processed ++ [id]
        changed := if r.1 = film then st.changed else true
        tmdbLog := st.tmdbLog ++ (if r.2 then [id] else []) }
    | none =>
      match get_omdb_film_details env.omdbKey (env.omdb id) with
      | none => { st with processed := st.processed ++ [id] }
      | some d =>
        let r := buildNewFilm env row id d
        { st with
          processed := st.processed ++ [id]
          newFilms := st.newFilms ++ [r.1]
          changed := true
          tmdbLog := st.tmdbLog ++ (if r.2 then [id] else []) }

/-- Lines 186–317: processing of one sheet row. -/
def processRow (env : Env) (st : SyncState) (row : Row) : SyncState :=
  match row.imdb_id with
  | none => st
  | some id => processId env st row id

/-- The processed-id set after one row with identifier `id`. -/
def stepProcessedId (P : List String) (id : String) : List String :=
  if id = "" then P
  else if P.contains id then P
  else P ++ [id]

/-- The processed-id set after one row, a function of the set and the row
alone (line 188 checks and line 193 inserts before any catalog work). -/
def stepProcessed (P : List String) (row : Row) : List String :=
  match row.imdb_id with
  | none => P
  | some id => stepProcessedId P id

/-- One full pass of `update_json_from_sheet` over the sheet: fold the row
step from a clean state, then extend the catalog with the new records
(line 321). -/
def runPass (env : Env) (sheet : List Row) (films : List Film) : SyncState :=
  let st := sheet.foldl (processRow env) { films := films }
  { st with films := st.films ++ st.newFilms, newFilms := [] }

/-! Concrete sanity checks of the embedding. -/

/-- A sample environment: OMDB echoes the identifier, no TMDb token. -/
def envNoTok : Env :=
  { omdbKey := some "k"
    tmdbToken := none
    omdb := fun i => OmdbResp.ok { imdbID := some i, fields := [("title", "T")] }
    tmdb := fun _ => none }

/-- A sample row with one rating. -/
def rowA : Row :=
  { imdb_id := some "tt1"
    watch_date := some "2024-01-01"
    selected_by := some "andy"
    trophyPresent := true
    trophy_notes := none
    cells := fun u =>
      if u = "andy" then { ratingPresent := true, rating := some "8", blurbPresent := true, blurb := some "good" }
      else { ratingPresent := true, blurbPresent := true } }

example :
    (runPass envNoTok [rowA] []).films =
      [{ imdbID := some "tt1", fields := [("title", "T")], tmdbFetched := some false,
         movieClubInfo := some
           { selector := some (some "andy"), watchDate := some (some "2024-01-01"),
             trophyNotes := some none, trophyInfo := some none,
             clubRatings := some [{ user := "andy", score := ScoreVal.int 8, blurb := some "good" }] } }] := by
  decide

example : (runPass envNoTok [rowA] []).changed = true := by decide

example :
    (runPass envNoTok [rowA] (runPass envNoTok [rowA] []).films).films =
      (runPass envNoTok [rowA] []).films := by decide

example :
    (runPass envNoTok [rowA] (runPass envNoTok [rowA] []).films).changed = false := by decide

/-! ### Generic facts about `updateFirst` / `updateLast` / `findLast?` -/

section ListLemmas

variable {α : Type} {p q : α → Bool} {g : α → α} {l : List α} {a x : α}

theorem findLast?_eq_none_iff :
    findLast? p l = none ↔ ∀ a ∈ l, p a = false := by
  rw [findLast?, List.find?_eq_none]
  constructor
  · intro h a ha
    have := h a (List.mem_reverse.mpr ha)
    exact Bool.eq_false_iff.mpr this
  · intro h a ha
    rw [h a (List.mem_reverse.mp ha)]
    simp

theorem findLast?_some_prop (h : findLast? p l = some a) : p a = true :=
  List.find?_some h

theorem findLast?_some_mem (h : findLast? p l = some a) : a ∈ l :=
  List.mem_reverse.mp (List.mem_of_find?_eq_some h)

theorem updateFirst_of_none (h : ∀ a ∈ l, p a = false) : updateFirst p g l = l := by
  induction l with
  | nil => rfl
  | cons b rest ih =>
    rw [updateFirst, if_neg]
    · rw [ih (fun a ha => h a (List.mem_cons_of_mem _ ha))]
    · simp [h b (List.mem_cons_self _ _)]

theorem updateFirst_fix (h : l.find? p = some a) (hg : g a = a) :
    updateFirst p g l = l := by
  induction l with
  | nil => simp at h
  | cons b rest ih =>
    rw [updateFirst]
    by_cases hb : p b = true
    · rw [List.find?_cons_of_pos _ hb] at h
      have hab : b = a := by injection h
      rw [if_pos hb, hab, hg]
    · have hbf : p b = false := Bool.eq_false_iff.mpr hb
      rw [List.find?_cons_of_neg _ (by simp [hbf])] at h
      rw [if_neg (by simp [hbf]), ih h]

theorem updateLast_fix (h : findLast? p l = some a) (hg : g a = a) :
    updateLast p g l = l := by
  rw [updateLast, updateFirst_fix h hg, List.reverse_reverse]

theorem find?_updateFirst (h : l.find? p = some a) (hp : p (g a) = true) :
    (updateFirst p g l).find? p = some (g a) := by
  induction l with
  | nil => simp at h
  | cons b rest ih =>
    rw [updateFirst]
    by_cases hb : p b = true
    · rw [List.find?_cons_of_pos _ hb] at h
      have hab : b = a := by injection h
      rw [if_pos hb, hab, List.find?_cons_of_pos _ hp]
    · have hbf : p b = false := Bool.eq_false_iff.mpr hb
      rw [List.find?_cons_of_neg _ (by simp [hbf])] at h
      rw [if_neg (by simp [hbf]), List.find?_cons_of_neg _ (by simp [hbf]), ih h]

theorem findLast?_updateLast (h : findLast? p l = some a) (hp : p (g a) = true) :
    findLast? p (updateLast p g l) = some (g a) := by
  rw [findLast?, updateLast, List.reverse_reverse]
  exact find?_updateFirst h hp

theorem find?_updateFirst_disj (hd : ∀ a ∈ l, p a = true → q a = false)
    (hg : ∀ a ∈ l, p a = true → q (g a) = false) :
    (updateFirst p g l).find? q = l.find? q := by
  induction l with
  | nil => rfl
  | cons b rest ih =>
    rw [updateFirst]
    by_cases hb : p b = true
    · have hqb : q b = false := hd b (List.mem_cons_self _ _) hb
      have hqg : q (g b) = false := hg b (List.mem_cons_self _ _) hb
      rw [if_pos hb, List.find?_cons_of_neg _ (by simp [hqg]),
        List.find?_cons_of_neg _ (by simp [hqb])]
    · rw [if_neg hb]
      by_cases hq : q b = true
      · rw [List.find?_cons_of_pos _ hq, List.find?_cons_of_pos _ hq]
      · have hqf : q b = false := Bool.eq_false_iff.mpr hq
        rw [List.find?_cons_of_neg _ (by simp [hqf]),
          List.find?_cons_of_neg _ (by simp [hqf]),
          ih (fun a ha => hd a (List.mem_cons_of_mem _ ha))
             (fun a ha => hg a (List.mem_cons_of_mem _ ha))]

theorem findLast?_updateLast_disj (hd : ∀ a ∈ l, p a = true → q a = false)
    (hg : ∀ a ∈ l, p a = true → q (g a) = false) :
    findLast? q (updateLast p g l) = findLast? q l := by
  rw [findLast?, updateLast, List.reverse_reverse, findLast?]
  exact find?_updateFirst_disj
    (fun a ha => hd a (List.mem_reverse.mp ha))
    (fun a ha => hg a (List.mem_reverse.mp ha))

theorem mem_updateFirst_of_not (hx : x ∈ l) (hpx : p x = false) :
    x ∈ updateFirst p g l := by
  induction l with
  | nil => simp at hx
  | cons b rest ih =>
    rw [updateFirst]
    rcases List.mem_cons.mp hx with h1 | h1
    · rw [h1, if_neg (by simp [h1 ▸ hpx])]
      exact List.mem_cons_self _ _
    · by_cases hb : p b = true
      · rw [if_pos hb]
        exact List.mem_cons_of_mem _ h1
      · rw [if_neg hb]
        exact List.mem_cons_of_mem _ (ih h1)

theorem mem_updateLast_of_not (hx : x ∈ l) (hpx : p x = false) :
    x ∈ updateLast p g l := by
  rw [updateLast, List.mem_reverse]
  exact mem_updateFirst_of_not (List.mem_reverse.mpr hx) hpx

theorem mem_updateFirst (hx : x ∈ updateFirst p g l) :
    x ∈ l ∨ ∃ a ∈ l, p a = true ∧ x = g a := by
  induction l with
  | nil => simp [updateFirst] at hx
  | cons b rest ih =>
    rw [updateFirst] at hx
    by_cases hb : p b = true
    · rw [if_pos hb] at hx
      rcases List.mem_cons.mp hx with h1 | h1
      · exact Or.inr ⟨b, List.mem_cons_self _ _, hb, h1⟩
      · exact Or.inl (List.mem_cons_of_mem _ h1)
    · rw [if_neg hb] at hx
      rcases List.mem_cons.mp hx with h1 | h1
      · exact Or.inl (h1 ▸ List.mem_cons_self _ _)
      · rcases ih h1 with h2 | ⟨a, ha, hpa, hxa⟩
        · exact Or.inl (List.mem_cons_of_mem _ h2)
        · exact Or.inr ⟨a, List.mem_cons_of_mem _ ha, hpa, hxa⟩

theorem mem_updateLast (hx : x ∈ updateLast p g l) :
    x ∈ l ∨ ∃ a ∈ l, p a = true ∧ x = g a := by
  rw [updateLast, List.mem_reverse] at hx
  rcases mem_updateFirst hx with h1 | ⟨a, ha, hpa, hxa⟩
  · exact Or.inl (List.mem_reverse.mp h1)
  · exact Or.inr ⟨a, List.mem_reverse.mp ha, hpa, hxa⟩

theorem map_updateFirst {β : Type} {h : α → β} (hg : ∀ a, h (g a) = h a) :
    (updateFirst p g l).map h = l.map h := by
  induction l with
  | nil => rfl
  | cons b rest ih =>
    rw [updateFirst]
    by_cases hb : p b = true
    · rw [if_pos hb]
      simp [hg b]
    · rw [if_neg hb]
      simp [ih]

theorem map_updateLast {β : Type} {h : α → β} (hg : ∀ a, h (g a) = h a) :
    (updateLast p g l).map h = l.map h := by
  rw [updateLast, List.map_reverse, map_updateFirst hg, ← List.map_reverse,
    List.reverse_reverse]

theorem filter_updateFirst_disj (hd : ∀ a ∈ l, p a = true → q a = false)
    (hg : ∀ a ∈ l, p a = true → q (g a) = false) :
    (updateFirst p g l).filter q = l.filter q := by
  induction l with
  | nil => rfl
  | cons b rest ih =>
    rw [updateFirst]
    by_cases hb : p b = true
    · have hqb : q b = false := hd b (List.mem_cons_self _ _) hb
      have hqg : q (g b) = false := hg b (List.mem_cons_self _ _) hb
      rw [if_pos hb, List.filter_cons, List.filter_cons, hqb, hqg]
      simp
    · rw [if_neg hb, List.filter_cons, List.filter_cons,
        ih (fun a ha => hd a (List.mem_cons_of_mem _ ha))
           (fun a ha => hg a (List.mem_cons_of_mem _ ha))]

theorem filter_updateLast_disj (hd : ∀ a ∈ l, p a = true → q a = false)
    (hg : ∀ a ∈ l, p a = true → q (g a) = false) :
    (updateLast p g l).filter q = l.filter q := by
  rw [updateLast, List.filter_reverse, filter_updateFirst_disj
    (fun a ha => hd a (List.mem_reverse.mp ha))
    (fun a ha => hg a (List.mem_reverse.mp ha)), ← List.filter_reverse,
    List.reverse_reverse]

theorem updateFirst_self_fix (h : updateFirst p g l = l) (ha : l.find? p = some a) :
    g a = a := by
  induction l with
  | nil => simp at ha
  | cons b rest ih =>
    rw [updateFirst] at h
    by_cases hb : p b = true
    · rw [List.find?_cons_of_pos _ hb] at ha
      have hab : b = a := by injection ha
      rw [if_pos hb, List.cons.injEq] at h
      rw [← hab, h.1]
    · have hbf : p b = false := Bool.eq_false_iff.mpr hb
      rw [List.find?_cons_of_neg _ (by simp [hbf])] at ha
      rw [if_neg hb, List.cons.injEq] at h
      exact ih h.2 ha

theorem updateLast_self_fix (h : updateLast p g l = l) (ha : findLast? p l = some a) :
    g a = a := by
  rw [updateLast] at h
  have h2 : updateFirst p g l.reverse = l.reverse := by
    have := congrArg List.reverse h
    rwa [List.reverse_reverse] at this
  exact updateFirst_self_fix h2 ha

theorem findLast?_append_single :
    findLast? p (l ++ [x]) = if p x then some x else findLast? p l := by
  rw [findLast?, List.reverse_append]
  simp only [List.reverse_cons, List.reverse_nil, List.nil_append, List.singleton_append]
  by_cases hx : p x = true
  · rw [List.find?_cons_of_pos _ hx, if_pos hx]
  · have hxf : p x = false := Bool.eq_false_iff.mpr hx
    rw [List.find?_cons_of_neg _ (by simp [hxf]), if_neg (by simp [hxf])]
    rfl

theorem find?_append_of_none {l₁ l₂ : List α} (h : l₁.find? p = none) :
    (l₁ ++ l₂).find? p = l₂.find? p := by
  induction l₁ with
  | nil => rfl
  | cons b rest ih =>
    rw [List.find?_eq_none] at h
    have hbf : ¬ p b = true := h b (List.mem_cons_self _ _)
    rw [List.cons_append, List.find?_cons_of_neg _ hbf]
    exact ih (List.find?_eq_none.mpr fun a ha => h a (List.mem_cons_of_mem _ ha))

theorem findLast?_append_of_none {l₁ l₂ : List α} (h : findLast? p l₂ = none) :
    findLast? p (l₁ ++ l₂) = findLast? p l₁ := by
  rw [findLast?, List.reverse_append, find?_append_of_none h]
  rfl

theorem any_eq_findLast?_isSome : l.any p = (findLast? p l).isSome := by
  rw [findLast?]
  cases hf : l.reverse.find? p with
  | none =>
    rw [List.find?_eq_none] at hf
    simp only [Option.isSome_none]
    rw [List.any_eq_false]
    intro a ha
    exact hf a (List.mem_reverse.mpr ha)
  | some a =>
    simp only [Option.isSome_some]
    rw [List.any_eq_true]
    exact ⟨a, List.mem_reverse.mp (List.mem_of_find?_eq_some hf), List.find?_some hf⟩

end ListLemmas

/-! ### Rating Merge Engine lemmas -/

theorem scoreWrite_user (ns : ScoreVal) (bv : Option String) (e : RatingEntry) :
    (scoreWrite ns bv e).user = e.user := by
  rw [scoreWrite]
  split <;> rfl

theorem scoreWrite_score (ns : ScoreVal) (bv : Option String) (e : RatingEntry) :
    (scoreWrite ns bv e).score = ns ∧ (scoreWrite ns bv e).blurb = bv := by
  rw [scoreWrite]
  split
  · rename_i h
    exact ⟨h.1, h.2⟩
  · exact ⟨rfl, rfl⟩

theorem scoreWrite_of_eq {ns : ScoreVal} {bv : Option String} {e : RatingEntry}
    (h1 : e.score = ns) (h2 : e.blurb = bv) : scoreWrite ns bv e = e := by
  rw [scoreWrite, if_pos ⟨h1, h2⟩]

theorem scoreWrite_idem (ns : ScoreVal) (bv : Option String) (e : RatingEntry) :
    scoreWrite ns bv (scoreWrite ns bv e) = scoreWrite ns bv e :=
  scoreWrite_of_eq (scoreWrite_score ns bv e).1 (scoreWrite_score ns bv e).2

theorem matchesUser_scoreWrite (low : String) (ns : ScoreVal) (bv : Option String)
    (e : RatingEntry) : matchesUser low (scoreWrite ns bv e) = matchesUser low e := by
  rw [matchesUser, matchesUser, scoreWrite_user]

/-- A list of entries on which the member's step is a no-op. -/
def RFix (row : Row) (u : String) (es : List RatingEntry) : Prop :=
  userStep row es u = es

theorem userStep_skip1 {row : Row} {u : String}
    (h : (row.cells u).ratingPresent = false ∧ (row.cells u).blurbPresent = false)
    (es : List RatingEntry) : userStep row es u = es := by
  rw [userStep, if_pos h]

theorem userStep_skip2 {row : Row} {u : String}
    (h1 : row.ratingVal u = none) (h2 : row.blurbVal u = none)
    (es : List RatingEntry) : userStep row es u = es := by
  by_cases hc1 : (row.cells u).ratingPresent = false ∧ (row.cells u).blurbPresent = false
  · rw [userStep, if_pos hc1]
  · rw [userStep, if_neg hc1, if_pos ⟨h1, h2⟩]

theorem userStep_eq_update {row : Row} {u : String} {es : List RatingEntry}
    (hc1 : ¬ ((row.cells u).ratingPresent = false ∧ (row.cells u).blurbPresent = false))
    (hc2 : ¬ (row.ratingVal u = none ∧ row.blurbVal u = none))
    (hany : es.any (matchesUser (lowerStr u)) = true) :
    userStep row es u = updateLast (matchesUser (lowerStr u))
      (scoreWrite (normScore (row.ratingVal u)) (row.blurbVal u)) es := by
  rw [userStep, if_neg hc1, if_neg hc2, if_pos hany]

theorem userStep_eq_append {row : Row} {u : String} {es : List RatingEntry}
    (hc1 : ¬ ((row.cells u).ratingPresent = false ∧ (row.cells u).blurbPresent = false))
    (hc2 : ¬ (row.ratingVal u = none ∧ row.blurbVal u = none))
    (hany : es.any (matchesUser (lowerStr u)) = false) :
    userStep row es u =
      es ++ [{ user := u, score := normScore (row.ratingVal u), blurb := row.blurbVal u }] := by
  rw [userStep, if_neg hc1, if_neg hc2, if_neg (by simp [hany])]

theorem userStep_fix_self (row : Row) (u : String) (es : List RatingEntry) :
    RFix row u (userStep row es u) := by
  rw [RFix]
  by_cases hc1 : (row.cells u).ratingPresent = false ∧ (row.cells u).blurbPresent = false
  · exact userStep_skip1 hc1 _
  · by_cases hc2 : row.ratingVal u = none ∧ row.blurbVal u = none
    · exact userStep_skip2 hc2.1 hc2.2 _
    · by_cases hany : es.any (matchesUser (lowerStr u)) = true
      · have h1 := userStep_eq_update hc1 hc2 hany
        obtain ⟨a, ha⟩ : ∃ a, findLast? (matchesUser (lowerStr u)) es = some a := by
          rw [any_eq_findLast?_isSome] at hany
          exact Option.isSome_iff_exists.mp hany
        have hpga : matchesUser (lowerStr u)
            (scoreWrite (normScore (row.ratingVal u)) (row.blurbVal u) a) = true := by
          rw [matchesUser_scoreWrite]
          exact findLast?_some_prop ha
        have hfind2 := findLast?_updateLast ha hpga
        have hany2 : (userStep row es u).any (matchesUser (lowerStr u)) = true := by
          rw [h1, any_eq_findLast?_isSome, hfind2]
          rfl
        rw [userStep_eq_update hc1 hc2 hany2, h1]
        exact updateLast_fix hfind2 (scoreWrite_idem _ _ a)
      · have hanyf : es.any (matchesUser (lowerStr u)) = false :=
          Bool.eq_false_iff.mpr hany
        have h1 := userStep_eq_append hc1 hc2 hanyf
        have hpuE : matchesUser (lowerStr u)
            ({ user := u, score := normScore (row.ratingVal u),
               blurb := row.blurbVal u } : RatingEntry) = true := beq_self_eq_true _
        have hfind : findLast? (matchesUser (lowerStr u))
            (es ++ [{ user := u, score := normScore (row.ratingVal u),
                      blurb := row.blurbVal u }]) =
            some { user := u, score := normScore (row.ratingVal u),
                   blurb := row.blurbVal u } := by
          rw [findLast?_append_single, if_pos hpuE]
        have hany2 : (userStep row es u).any (matchesUser (lowerStr u)) = true := by
          rw [h1, any_eq_findLast?_isSome, hfind]
          rfl
        rw [userStep_eq_update hc1 hc2 hany2, h1]
        exact updateLast_fix hfind (scoreWrite_of_eq rfl rfl)

theorem userStep_fix_other {row : Row} {u v : String}
    (huv : lowerStr u ≠ lowerStr v) {es : List RatingEntry}
    (hfix : RFix row u es) : RFix row u (userStep row es v) := by
  rw [RFix] at hfix ⊢
  by_cases hc1 : (row.cells v).ratingPresent = false ∧ (row.cells v).blurbPresent = false
  · rwa [userStep_skip1 hc1]
  · by_cases hc2 : row.ratingVal v = none ∧ row.blurbVal v = none
    · rwa [userStep_skip2 hc2.1 hc2.2]
    · by_cases hu1 : (row.cells u).ratingPresent = false ∧ (row.cells u).blurbPresent = false
      · exact userStep_skip1 hu1 _
      · by_cases hu2 : row.ratingVal u = none ∧ row.blurbVal u = none
        · exact userStep_skip2 hu2.1 hu2.2 _
        · -- the u-step on es is a real in-place update; extract its fixed entry
          have hany : es.any (matchesUser (lowerStr u)) = true := by
            by_contra hany
            rw [userStep_eq_append hu1 hu2 (Bool.eq_false_iff.mpr hany)] at hfix
            have := congrArg List.length hfix
            simp at this
          rw [userStep_eq_update hu1 hu2 hany] at hfix
          obtain ⟨a, ha⟩ : ∃ a, findLast? (matchesUser (lowerStr u)) es = some a := by
            have h1 := any_eq_findLast?_isSome (p := matchesUser (lowerStr u)) (l := es)
            rw [hany] at h1
            exact Option.isSome_iff_exists.mp h1.symm
          have hga : scoreWrite (normScore (row.ratingVal u)) (row.blurbVal u) a = a :=
            updateLast_self_fix hfix ha
          have hdisj : ∀ e : RatingEntry,
              matchesUser (lowerStr v) e = true → matchesUser (lowerStr u) e = false := by
            intro e he
            have hev : lowerStr e.user = lowerStr v := eq_of_beq he
            rw [show matchesUser (lowerStr u) e = (lowerStr e.user == lowerStr u) from rfl,
              hev]
            exact beq_eq_false_iff_ne.mpr (fun h => huv h.symm)
          have hstep : findLast? (matchesUser (lowerStr u)) (userStep row es v) = some a := by
            by_cases hanyv : es.any (matchesUser (lowerStr v)) = true
            · rw [userStep_eq_update hc1 hc2 hanyv]
              have hf := findLast?_updateLast_disj
                (p := matchesUser (lowerStr v)) (q := matchesUser (lowerStr u))
                (g := scoreWrite (normScore (row.ratingVal v)) (row.blurbVal v)) (l := es)
                (fun e _ hpe => hdisj e hpe)
                (fun e _ hpe => by
                  rw [matchesUser_scoreWrite]
                  exact hdisj e hpe)
              rw [hf, ha]
            · rw [userStep_eq_append hc1 hc2 (Bool.eq_false_iff.mpr hanyv)]
              have hpvE : matchesUser (lowerStr u)
                  ({ user := v, score := normScore (row.ratingVal v),
                     blurb := row.blurbVal v } : RatingEntry) = false := by
                show (lowerStr v == lowerStr u) = false
                exact beq_eq_false_iff_ne.mpr (fun h => huv h.symm)
              rw [findLast?_append_single, if_neg (by simp [hpvE]), ha]
          have hany2 : (userStep row es v).any (matchesUser (lowerStr u)) = true := by
            rw [any_eq_findLast?_isSome, hstep]
            rfl
          rw [userStep_eq_update hu1 hu2 hany2]
          exact updateLast_fix hstep hga

theorem userStep_fix_fold {row : Row} {u : String} (vs : List String)
    (hvs : ∀ v ∈ vs, lowerStr u ≠ lowerStr v) {es : List RatingEntry}
    (hfix : RFix row u es) : RFix row u (vs.foldl (userStep row) es) := by
  induction vs generalizing es with
  | nil => exact hfix
  | cons v rest ih =>
    rw [List.foldl_cons]
    exact ih (fun w hw => hvs w (List.mem_cons_of_mem _ hw))
      (userStep_fix_other (hvs v (List.mem_cons_self _ _)) hfix)

theorem foldl_of_fix {row : Row} (us : List String) {es : List RatingEntry}
    (hfix : ∀ u ∈ us, RFix row u es) : us.foldl (userStep row) es = es := by
  induction us with
  | nil => rfl
  | cons u rest ih =>
    rw [List.foldl_cons, hfix u (List.mem_cons_self _ _)]
    exact ih (fun w hw => hfix w (List.mem_cons_of_mem _ hw))

theorem fold_all_fixed {row : Row} (us : List String)
    (hpw : us.Pairwise (fun a b => lowerStr a ≠ lowerStr b)) (es : List RatingEntry) :
    ∀ u ∈ us, RFix row u (us.foldl (userStep row) es) := by
  induction us generalizing es with
  | nil => intro u hu; simp at hu
  | cons v rest ih =>
    intro u hu
    rw [List.foldl_cons]
    rcases List.mem_cons.mp hu with h1 | h1
    · rw [h1]
      exact userStep_fix_fold rest
        (fun w hw => (List.pairwise_cons.mp hpw).1 w hw)
        (userStep_fix_self row v es)
    · exact ih (List.pairwise_cons.mp hpw).2 _ u h1

theorem users_pairwise : users.Pairwise (fun a b => lowerStr a ≠ lowerStr b) := by
  rw [users]
  decide

theorem mergeRatings_idem (row : Row) (es : List RatingEntry) :
    mergeRatings row (mergeRatings row es) = mergeRatings row es := by
  rw [mergeRatings, mergeRatings]
  exact foldl_of_fix users (fold_all_fixed users users_pairwise es)

/-- On a brand-new record the rating loop of lines 300–311 builds exactly what
the Rating Merge Engine would build from an empty prior collection. -/
theorem initFold_eq_mergeFold (row : Row) :
    ∀ (us : List String) (acc : List RatingEntry),
    (∀ e ∈ acc, ∀ u ∈ us, lowerStr e.user ≠ lowerStr u) →
    us.Pairwise (fun a b => lowerStr a ≠ lowerStr b) →
    us.foldl (initUserStep row) acc = us.foldl (userStep row) acc := by
  intro us
  induction us with
  | nil => intro acc _ _; rfl
  | cons u rest ih =>
    intro acc hacc hpw
    rw [List.foldl_cons, List.foldl_cons]
    by_cases hdata : row.ratingVal u = none ∧ row.blurbVal u = none
    · have h1 : initUserStep row acc u = acc := by
        rw [initUserStep, if_neg]
        simp [hdata.1, hdata.2]
      rw [h1, userStep_skip2 hdata.1 hdata.2]
      exact ih acc (fun e he w hw => hacc e he w (List.mem_cons_of_mem _ hw))
        (List.pairwise_cons.mp hpw).2
    · have hc2 : ¬ (row.ratingVal u = none ∧ row.blurbVal u = none) := hdata
      have hc1 : ¬ ((row.cells u).ratingPresent = false ∧ (row.cells u).blurbPresent = false) := by
        intro h
        apply hc2
        constructor
        · rw [Row.ratingVal, if_neg (by simp [h.1])]
        · rw [Row.blurbVal, if_neg (by simp [h.2])]
      have h1 : initUserStep row acc u =
          acc ++ [{ user := u, score := normScore (row.ratingVal u), blurb := row.blurbVal u }] := by
        rw [initUserStep, if_pos]
        rcases Option.eq_none_or_eq_some (row.ratingVal u) with h | ⟨a, h⟩
        · rcases Option.eq_none_or_eq_some (row.blurbVal u) with h2 | ⟨b, h2⟩
          · exact absurd ⟨h, h2⟩ hc2
          · right; simp [h2]
        · left; simp [h]
      have hany : acc.any (matchesUser (lowerStr u)) = false := by
        rw [List.any_eq_false]
        intro e he
        simp only [matchesUser]
        exact ne_true_of_eq_false
          (beq_eq_false_iff_ne.mpr (hacc e he u (List.mem_cons_self _ _)))
      rw [h1, userStep_eq_append hc1 hc2 hany]
      refine ih _ ?_ (List.pairwise_cons.mp hpw).2
      intro e he w hw
      rcases List.mem_append.mp he with h2 | h2
      · exact hacc e h2 w (List.mem_cons_of_mem _ hw)
      · rw [List.mem_singleton.mp h2]
        exact (List.pairwise_cons.mp hpw).1 w hw

theorem initRatings_eq_merge (row : Row) : initRatings row = mergeRatings row [] := by
  rw [initRatings, mergeRatings]
  exact initFold_eq_mergeFold row users [] (by intro e he; simp at he) users_pairwise

theorem mergeRatings_initRatings (row : Row) :
    mergeRatings row (initRatings row) = initRatings row := by
  rw [initRatings_eq_merge, mergeRatings_idem]

/-! ### ClubInfo update fixpoints -/

theorem updWatchVal_fix (row : Row) (w : Option (Option String)) :
    updWatchVal row (updWatchVal row w) = updWatchVal row w := by
  by_cases h : pyTruthy row.watch_date = true ∧ pyGet w ≠ row.watch_date
  · have h1 : updWatchVal row w = some row.watch_date := by
      rw [updWatchVal, if_pos ⟨h.1, h.2⟩]
    rw [h1, updWatchVal, if_neg (fun hc => hc.2 rfl)]
  · have h1 : updWatchVal row w = w := by
      rw [updWatchVal, if_neg (fun hc => h ⟨hc.1, hc.2⟩)]
    rw [h1, h1]

theorem updSelVal_fix (row : Row) (s : Option (Option String)) :
    updSelVal row (updSelVal row s) = updSelVal row s := by
  by_cases h : pyTruthy row.selected_by = true ∧ pyGet s ≠ row.selected_by
  · have h1 : updSelVal row s = some row.selected_by := by
      rw [updSelVal, if_pos ⟨h.1, h.2⟩]
    rw [h1, updSelVal, if_neg (fun hc => hc.2 rfl)]
  · have h1 : updSelVal row s = s := by
      rw [updSelVal, if_neg (fun hc => h ⟨hc.1, hc.2⟩)]
    rw [h1, h1]

theorem updTrophyVal_fix (row : Row) (t : Option (Option String)) :
    updTrophyVal row (updTrophyVal row t) = updTrophyVal row t := by
  by_cases hp : row.trophyPresent = true
  · by_cases he : pyGet t = row.trophy_notes
    · have h1 : updTrophyVal row t = t := by
        rw [updTrophyVal, if_pos hp, if_pos he]
      rw [h1, h1]
    · have h1 : updTrophyVal row t = some row.trophy_notes := by
        rw [updTrophyVal, if_pos hp, if_neg he]
      rw [h1, updTrophyVal, if_pos hp]
      split <;> rfl
  · have h1 : updTrophyVal row t = t := by
      rw [updTrophyVal, if_neg hp]
    rw [h1, h1]

theorem ClubInfo.ext_fields {a b : ClubInfo}
    (h1 : a.selector = b.selector) (h2 : a.watchDate = b.watchDate)
    (h3 : a.trophyNotes = b.trophyNotes) (h4 : a.trophyInfo = b.trophyInfo)
    (h5 : a.clubRatings = b.clubRatings) : a = b := by
  cases a
  cases b
  simp only at h1 h2 h3 h4 h5
  rw [h1, h2, h3, h4, h5]

theorem ensureRatings_selector (ci : ClubInfo) :
    (ensureRatings ci).selector = ci.selector := by
  rw [ensureRatings]
  split <;> rfl

theorem ensureRatings_watchDate (ci : ClubInfo) :
    (ensureRatings ci).watchDate = ci.watchDate := by
  rw [ensureRatings]
  split <;> rfl

theorem ensureRatings_trophyNotes (ci : ClubInfo) :
    (ensureRatings ci).trophyNotes = ci.trophyNotes := by
  rw [ensureRatings]
  split <;> rfl

theorem ensureRatings_trophyInfo (ci : ClubInfo) :
    (ensureRatings ci).trophyInfo = ci.trophyInfo := by
  rw [ensureRatings]
  split <;> rfl

theorem ensureRatings_clubRatings (ci : ClubInfo) :
    (ensureRatings ci).clubRatings = some (ci.clubRatings.getD []) := by
  rw [ensureRatings]
  cases h : ci.clubRatings with
  | none => simp [h]
  | some r => simp [h]

theorem clubStep_selector (row : Row) (ci : ClubInfo) :
    (clubStep row ci).selector = updSelVal row ci.selector := by
  rw [clubStep]
  show (ensureRatings (updateClubInfo row ci)).selector = _
  rw [ensureRatings_selector]
  rfl

theorem clubStep_watchDate (row : Row) (ci : ClubInfo) :
    (clubStep row ci).watchDate = updWatchVal row ci.watchDate := by
  rw [clubStep]
  show (ensureRatings (updateClubInfo row ci)).watchDate = _
  rw [ensureRatings_watchDate]
  rfl

theorem clubStep_trophyNotes (row : Row) (ci : ClubInfo) :
    (clubStep row ci).trophyNotes = updTrophyVal row ci.trophyNotes := by
  rw [clubStep]
  show (ensureRatings (updateClubInfo row ci)).trophyNotes = _
  rw [ensureRatings_trophyNotes]
  rfl

theorem clubStep_trophyInfo (row : Row) (ci : ClubInfo) :
    (clubStep row ci).trophyInfo = ci.trophyInfo := by
  rw [clubStep]
  show (ensureRatings (updateClubInfo row ci)).trophyInfo = _
  rw [ensureRatings_trophyInfo]
  rfl

theorem clubStep_clubRatings (row : Row) (ci : ClubInfo) :
    (clubStep row ci).clubRatings = some (mergeRatings row (ci.clubRatings.getD [])) := by
  rw [clubStep]
  show some (mergeRatings row ((ensureRatings (updateClubInfo row ci)).clubRatings.getD [])) = _
  rw [ensureRatings_clubRatings]
  rfl

theorem clubStep_fix (row : Row) (ci : ClubInfo) :
    clubStep row (clubStep row ci) = clubStep row ci := by
  apply ClubInfo.ext_fields
  · rw [clubStep_selector, clubStep_selector, updSelVal_fix]
  · rw [clubStep_watchDate, clubStep_watchDate, updWatchVal_fix]
  · rw [clubStep_trophyNotes, clubStep_trophyNotes, updTrophyVal_fix]
  · rw [clubStep_trophyInfo, clubStep_trophyInfo]
  · rw [clubStep_clubRatings, clubStep_clubRatings]
    simp only [Option.getD_some]
    rw [mergeRatings_idem]

/-! ### TMDb step lemmas -/

theorem tmdbStep_noToken {env : Env} (h : pyTruthy env.tmdbToken = false)
    (id : String) (f : Film) : tmdbStepExisting env id f = (f, false) := by
  rw [tmdbStepExisting, if_neg (by simp [h])]

theorem tmdbStep_done {env : Env} {f : Film} (h : f.tmdbFetched = some true)
    (id : String) : tmdbStepExisting env id f = (f, false) := by
  rw [tmdbStepExisting]
  split
  · rw [if_neg (by simp [h])]
  · rfl

theorem tmdbStep_movieClubInfo (env : Env) (id : String) (f : Film) :
    ((tmdbStepExisting env id f).1).movieClubInfo = f.movieClubInfo := by
  rw [tmdbStepExisting]
  split
  · split
    · split <;> rfl
    · rfl
  · rfl

theorem tmdbStep_imdbID (env : Env) (id : String) (f : Film) :
    ((tmdbStepExisting env id f).1).imdbID = f.imdbID := by
  rw [tmdbStepExisting]
  split
  · split
    · split <;> rfl
    · rfl
  · rfl

theorem tmdbStep_flag_true {env : Env} (ht : pyTruthy env.tmdbToken = true)
    (id : String) (f : Film) :
    ((tmdbStepExisting env id f).1).tmdbFetched = some true := by
  rw [tmdbStepExisting, if_pos ht]
  split
  · split <;> rfl
  · rename_i h
    simpa using h

theorem tmdbStep_invoked_iff (env : Env) (id : String) (f : Film) :
    (tmdbStepExisting env id f).2 = true ↔
      (f.tmdbFetched ≠ some true ∧ pyTruthy env.tmdbToken = true) := by
  constructor
  · intro h
    by_cases ht : pyTruthy env.tmdbToken = true
    · refine ⟨?_, ht⟩
      intro hf
      rw [tmdbStep_done hf] at h
      simp at h
    · rw [tmdbStep_noToken (Bool.eq_false_iff.mpr ht)] at h
      simp at h
  · intro ⟨hf, ht⟩
    rw [tmdbStepExisting, if_pos ht, if_pos hf]

theorem tmdbStep_invoked_flag {env : Env} {id : String} {f : Film}
    (h : (tmdbStepExisting env id f).2 = true) :
    ((tmdbStepExisting env id f).1).tmdbFetched = some true :=
  tmdbStep_flag_true ((tmdbStep_invoked_iff env id f).mp h).2 id f

/-! ### Idempotence of the existing-record step -/

theorem existingStep_movieClubInfo (env : Env) (row : Row) (id : String) (f : Film) :
    ((existingStep env row id f).1).movieClubInfo =
      some (clubStep row (f.movieClubInfo.getD shellClub)) := by
  rw [existingStep, tmdbStep_movieClubInfo]

theorem existingStep_imdbID (env : Env) (row : Row) (id : String) (f : Film) :
    ((existingStep env row id f).1).imdbID = f.imdbID := by
  rw [existingStep, tmdbStep_imdbID]

theorem existingStep_flag_noToken {env : Env} (h : pyTruthy env.tmdbToken = false)
    (row : Row) (id : String) (f : Film) :
    ((existingStep env row id f).1).tmdbFetched = f.tmdbFetched := by
  rw [existingStep, tmdbStep_noToken h]

theorem existingStep_flag_token {env : Env} (h : pyTruthy env.tmdbToken = true)
    (row : Row) (id : String) (f : Film) :
    ((existingStep env row id f).1).tmdbFetched = some true := by
  rw [existingStep, tmdbStep_flag_true h]

theorem existingStep_idem (env : Env) (row : Row) (id : String) (f : Film) :
    (existingStep env row id ((existingStep env row id f).1)).1 =
      (existingStep env row id f).1 := by
  have hclub : ({ (existingStep env row id f).1 with
      movieClubInfo := some (clubStep row
        (((existingStep env row id f).1).movieClubInfo.getD shellClub)) } : Film) =
      (existingStep env row id f).1 := by
    rw [existingStep_movieClubInfo]
    simp only [Option.getD_some]
    rw [clubStep_fix, ← existingStep_movieClubInfo env row id f]
  rw [existingStep, hclub]
  by_cases ht : pyTruthy env.tmdbToken = true
  · rw [tmdbStep_done (existingStep_flag_token ht row id f)]
  · rw [tmdbStep_noToken (Bool.eq_false_iff.mpr ht)]

/-! ### Fixpoint of a freshly built new record -/

theorem updWatchVal_init (row : Row) :
    updWatchVal row (some row.watch_date) = some row.watch_date := by
  rw [updWatchVal, if_neg (fun hc => hc.2 rfl)]

theorem updSelVal_init (row : Row) :
    updSelVal row (some row.selected_by) = some row.selected_by := by
  rw [updSelVal, if_neg (fun hc => hc.2 rfl)]

theorem updTrophyVal_init (row : Row) :
    updTrophyVal row (some row.trophyVal) = some row.trophyVal := by
  by_cases hp : row.trophyPresent = true
  · rw [updTrophyVal, if_pos hp, if_pos]
    show row.trophyVal = row.trophy_notes
    rw [Row.trophyVal, if_pos hp]
  · rw [updTrophyVal, if_neg hp]

theorem clubStep_initClub (row : Row) : clubStep row (initClub row) = initClub row := by
  apply ClubInfo.ext_fields
  · rw [clubStep_selector]
    exact updSelVal_init row
  · rw [clubStep_watchDate]
    exact updWatchVal_init row
  · rw [clubStep_trophyNotes]
    exact updTrophyVal_init row
  · rw [clubStep_trophyInfo]
  · rw [clubStep_clubRatings]
    show some (mergeRatings row ((some (initRatings row)).getD [])) = some (initRatings row)
    simp only [Option.getD_some]
    rw [mergeRatings_initRatings]

theorem buildNewFilm_movieClubInfo (env : Env) (row : Row) (id : String) (d : OmdbData) :
    ((buildNewFilm env row id d).1).movieClubInfo = some (initClub row) := rfl

theorem buildNewFilm_imdbID (env : Env) (row : Row) (id : String) (d : OmdbData) :
    ((buildNewFilm env row id d).1).imdbID = d.imdbID := by
  rw [buildNewFilm]
  split
  · split <;> rfl
  · rfl

theorem buildNewFilm_flag_token {env : Env} (ht : pyTruthy env.tmdbToken = true)
    (row : Row) (id : String) (d : OmdbData) :
    ((buildNewFilm env row id d).1).tmdbFetched = some true := by
  rw [buildNewFilm]
  simp only
  rw [if_pos ht]
  split <;> rfl

theorem buildNewFilm_flag_noToken {env : Env} (ht : pyTruthy env.tmdbToken = false)
    (row : Row) (id : String) (d : OmdbData) :
    ((buildNewFilm env row id d).1).tmdbFetched = some false := by
  rw [buildNewFilm]
  simp only
  rw [if_neg (by simp [ht])]

theorem buildNewFilm_fix (env : Env) (row : Row) (id : String) (d : OmdbData) :
    (existingStep env row id ((buildNewFilm env row id d).1)).1 =
      (buildNewFilm env row id d).1 := by
  have hclub : ({ (buildNewFilm env row id d).1 with
      movieClubInfo := some (clubStep row
        (((buildNewFilm env row id d).1).movieClubInfo.getD shellClub)) } : Film) =
      (buildNewFilm env row id d).1 := by
    rw [buildNewFilm_movieClubInfo]
    simp only [Option.getD_some]
    rw [clubStep_initClub, ← buildNewFilm_movieClubInfo env row id d]
  rw [existingStep, hclub]
  by_cases ht : pyTruthy env.tmdbToken = true
  · rw [tmdbStep_done (buildNewFilm_flag_token ht row id d)]
  · rw [tmdbStep_noToken (Bool.eq_false_iff.mpr ht)]

/-! ### Row-step case equations -/

theorem fpred_iff {id : String} {f : Film} : fpred id f = true ↔ f.imdbID = some id := by
  rw [fpred]
  exact beq_iff_eq

theorem fpred_false {id : String} {f : Film} (h : f.imdbID ≠ some id) :
    fpred id f = false := by
  rw [fpred]
  exact beq_eq_false_iff_ne.mpr h

theorem processRow_blank {env : Env} {st : SyncState} {row : Row}
    (h : row.imdb_id = none) : processRow env st row = st := by
  rw [processRow, h]

theorem processRow_some {env : Env} {st : SyncState} {row : Row} {id : String}
    (h : row.imdb_id = some id) : processRow env st row = processId env st row id := by
  rw [processRow, h]

theorem processRow_empty {env : Env} {st : SyncState} {row : Row}
    (h : row.imdb_id = some "") : processRow env st row = st := by
  rw [processRow_some h, processId, if_pos rfl]

theorem processRow_dup {env : Env} {st : SyncState} {row : Row} {id : String}
    (h : row.imdb_id = some id) (hne : id ≠ "")
    (hdup : st.processed.contains id = true) : processRow env st row = st := by
  rw [processRow_some h, processId, if_neg hne, if_pos hdup]

theorem processRow_existing {env : Env} {st : SyncState} {row : Row} {id : String}
    {film : Film} (h : row.imdb_id = some id) (hne : id ≠ "")
    (hdup : st.processed.contains id = false)
    (hfind : findLast? (fpred id) st.films = some film) :
    processRow env st row =
      { st with
        films := updateLast (fpred id) (fun _ => (existingStep env row id film).1) st.films
        processed := st.processed ++ [id]
        changed := if (existingStep env row id film).1 = film then st.changed else true
        tmdbLog := st.tmdbLog ++ (if (existingStep env row id film).2 then [id] else []) } := by
  rw [processRow_some h, processId, if_neg hne, if_neg (by rw [hdup]; simp), hfind]

theorem processRow_nofetch {env : Env} {st : SyncState} {row : Row} {id : String}
    (h : row.imdb_id = some id) (hne : id ≠ "")
    (hdup : st.processed.contains id = false)
    (hfind : findLast? (fpred id) st.films = none)
    (homdb : get_omdb_film_details env.omdbKey (env.omdb id) = none) :
    processRow env st row = { st with processed := st.processed ++ [id] } := by
  rw [processRow_some h, processId, if_neg hne, if_neg (by rw [hdup]; simp), hfind, homdb]

theorem processRow_new {env : Env} {st : SyncState} {row : Row} {id : String}
    {d : OmdbData} (h : row.imdb_id = some id) (hne : id ≠ "")
    (hdup : st.processed.contains id = false)
    (hfind : findLast? (fpred id) st.films = none)
    (homdb : get_omdb_film_details env.omdbKey (env.omdb id) = some d) :
    processRow env st row =
      { st with
        processed := st.processed ++ [id]
        newFilms := st.newFilms ++ [(buildNewFilm env row id d).1]
        changed := true
        tmdbLog := st.tmdbLog ++ (if (buildNewFilm env row id d).2 then [id] else []) } := by
  rw [processRow_some h, processId, if_neg hne, if_neg (by rw [hdup]; simp), hfind, homdb]

theorem stepProcessed_some {P : List String} {row : Row} {id : String}
    (h : row.imdb_id = some id) : stepProcessed P row = stepProcessedId P id := by
  rw [stepProcessed, h]

theorem processRow_processed (env : Env) (st : SyncState) (row : Row) :
    (processRow env st row).processed = stepProcessed st.processed row := by
  cases h : row.imdb_id with
  | none => rw [processRow_blank h, stepProcessed, h]
  | some id =>
    rw [stepProcessed_some h]
    by_cases he : id = ""
    · rw [he] at h
      rw [processRow_empty h, he, stepProcessedId, if_pos rfl]
    · rw [stepProcessedId, if_neg he]
      by_cases hd : st.processed.contains id = true
      · rw [processRow_dup h he hd, if_pos hd]
      · have hdf : st.processed.contains id = false := Bool.eq_false_iff.mpr hd
        rw [if_neg hd]
        cases hfind : findLast? (fpred id) st.films with
        | some film => rw [processRow_existing h he hdf hfind]
        | none =>
          cases homdb : get_omdb_film_details env.omdbKey (env.omdb id) with
          | none => rw [processRow_nofetch h he hdf hfind homdb]
          | some d => rw [processRow_new h he hdf hfind homdb]

theorem contains_append_left {P : List String} {Q : List String} {id : String}
    (h : P.contains id = true) : (P ++ Q).contains id = true := by
  rw [List.contains_eq_any_beq] at h ⊢
  rw [List.any_append, h]
  rfl

theorem stepProcessed_mono {P : List String} {row : Row} {id : String}
    (h : P.contains id = true) : (stepProcessed P row).contains id = true := by
  cases hr : row.imdb_id with
  | none => rw [stepProcessed, hr]; exact h
  | some j =>
    rw [stepProcessed_some hr, stepProcessedId]
    by_cases he : j = ""
    · rw [if_pos he]; exact h
    · rw [if_neg he]
      by_cases hd : P.contains j = true
      · rw [if_pos hd]; exact h
      · rw [if_neg hd]
        exact contains_append_left h

theorem processed_mono {env : Env} {st : SyncState} {row : Row} {id : String}
    (h : st.processed.contains id = true) :
    (processRow env st row).processed.contains id = true := by
  rw [processRow_processed]
  exact stepProcessed_mono h

theorem find?_append_or {α : Type} (p : α → Bool) (l₁ l₂ : List α) :
    (l₁ ++ l₂).find? p = (l₁.find? p).or (l₂.find? p) := by
  induction l₁ with
  | nil => rfl
  | cons a rest ih =>
    by_cases ha : p a = true
    · rw [List.cons_append, List.find?_cons_of_pos _ ha, List.find?_cons_of_pos _ ha]
      rfl
    · rw [List.cons_append, List.find?_cons_of_neg _ ha, List.find?_cons_of_neg _ ha, ih]

theorem findLast?_append_or {α : Type} (p : α → Bool) (l₁ l₂ : List α) :
    findLast? p (l₁ ++ l₂) = (findLast? p l₂).or (findLast? p l₁) := by
  rw [findLast?, List.reverse_append, find?_append_or]
  rfl

/-! ### Frame property: rows with other identifiers do not disturb a record -/

/-- The catalog as extended at the end of the pass (line 321). -/
def finalFilms (st : SyncState) : List Film := st.films ++ st.newFilms

/-- Well-formed Primary Provider: a successful payload carries the queried
identifier in its `imdbID` key. -/
def OmdbEcho (env : Env) : Prop :=
  ∀ i d, env.omdb i = OmdbResp.ok d → d.imdbID = some i

/-- New records pending in the state belong to already-processed ids. -/
def NFinv (st : SyncState) : Prop :=
  ∀ f ∈ st.newFilms, ∃ j, f.imdbID = some j ∧ st.processed.contains j = true

theorem get_omdb_some {k : Option String} {r : OmdbResp} {d : OmdbData}
    (h : get_omdb_film_details k r = some d) : r = OmdbResp.ok d := by
  cases r with
  | ok d2 =>
    rw [get_omdb_film_details] at h
    split at h
    · injection h with h3
      rw [h3]
    · exact Option.noConfusion h
  | transportError =>
    rw [get_omdb_film_details] at h
    split at h <;> exact Option.noConfusion h
  | badStatus =>
    rw [get_omdb_film_details] at h
    split at h <;> exact Option.noConfusion h
  | apiFalse =>
    rw [get_omdb_film_details] at h
    split at h <;> exact Option.noConfusion h
  | decodeError =>
    rw [get_omdb_film_details] at h
    split at h <;> exact Option.noConfusion h

theorem some_ne_of_ne {a b : String} (h : a ≠ b) : some a ≠ some b := by
  intro hc
  exact h (by injection hc)

theorem frame_step (env : Env) (hwf : OmdbEcho env) {id : String} {st : SyncState}
    (row : Row) (hid : st.processed.contains id = true) :
    findLast? (fpred id) (finalFilms (processRow env st row)) =
      findLast? (fpred id) (finalFilms st) := by
  cases h : row.imdb_id with
  | none => rw [processRow_blank h]
  | some j =>
    by_cases he : j = ""
    · rw [he] at h
      rw [processRow_empty h]
    · by_cases hd : st.processed.contains j = true
      · rw [processRow_dup h he hd]
      · have hdf : st.processed.contains j = false := Bool.eq_false_iff.mpr hd
        have hij : j ≠ id := by
          intro hc
          rw [hc, hid] at hdf
          cases hdf
        cases hfind : findLast? (fpred j) st.films with
        | some film =>
          rw [processRow_existing h he hdf hfind]
          show findLast? (fpred id)
            (updateLast (fpred j) (fun _ => (existingStep env row j film).1) st.films
              ++ st.newFilms) = _
          rw [finalFilms, findLast?_append_or, findLast?_append_or]
          have hfilm : film.imdbID = some j := fpred_iff.mp (findLast?_some_prop hfind)
          have hupd := findLast?_updateLast_disj
            (p := fpred j) (q := fpred id)
            (g := fun _ => (existingStep env row j film).1) (l := st.films)
            (fun a _ hpa => fpred_false
              (fun hc => some_ne_of_ne hij (by rw [← fpred_iff.mp hpa, hc])))
            (fun a _ _ => fpred_false
              (fun hc => some_ne_of_ne hij (by
                rw [existingStep_imdbID, hfilm] at hc
                exact hc)))
          rw [hupd]
        | none =>
          cases homdb : get_omdb_film_details env.omdbKey (env.omdb j) with
          | none =>
            rw [processRow_nofetch h he hdf hfind homdb]
            rfl
          | some d =>
            rw [processRow_new h he hdf hfind homdb]
            show findLast? (fpred id)
              (st.films ++ (st.newFilms ++ [(buildNewFilm env row j d).1])) = _
            rw [← List.append_assoc, findLast?_append_single, if_neg]
            · rfl
            · have hbn : ((buildNewFilm env row j d).1).imdbID = some j := by
                rw [buildNewFilm_imdbID]
                exact hwf j d (get_omdb_some homdb)
              rw [fpred_false (by rw [hbn]; exact some_ne_of_ne hij)]
              simp

theorem frame_fold (env : Env) (hwf : OmdbEcho env) {id : String} :
    ∀ (rows : List Row) (st : SyncState), st.processed.contains id = true →
    findLast? (fpred id) (finalFilms (rows.foldl (processRow env) st)) =
      findLast? (fpred id) (finalFilms st) := by
  intro rows
  induction rows with
  | nil => intro st _; rfl
  | cons row rest ih =>
    intro st hid
    rw [List.foldl_cons, ih (processRow env st row) (processed_mono hid),
      frame_step env hwf row hid]

theorem contains_append_self (P : List String) (id : String) :
    (P ++ [id]).contains id = true := by
  rw [List.contains_eq_any_beq, List.any_append]
  have : [id].any (id == ·) = true := by
    simp
  rw [this, Bool.or_true]

/-! ### Absorption: a settled catalog passes through a pass unchanged -/

/-- A row whose effective processing against catalog `c` (fresh relative to
processed set `P`) would be a no-op: the record it finds is a fixpoint of its
step, or its Primary Provider lookup fails. -/
def RowSettled (env : Env) (row : Row) (P : List String) (c : List Film) : Prop :=
  ∀ id, row.imdb_id = some id → id ≠ "" → P.contains id = false →
    ((∀ film, findLast? (fpred id) c = some film →
        (existingStep env row id film).1 = film) ∧
     (findLast? (fpred id) c = none →
        get_omdb_film_details env.omdbKey (env.omdb id) = none))

/-- All rows settled against catalog `c`, threading the processed set. -/
def SettledRec (env : Env) (c : List Film) : List String → List Row → Prop
  | _, [] => True
  | P, row :: rest => RowSettled env row P c ∧ SettledRec env c (stepProcessed P row) rest

theorem absorb (env : Env) :
    ∀ (rows : List Row) (st : SyncState),
    SettledRec env st.films st.processed rows →
    ((rows.foldl (processRow env) st).films = st.films ∧
     (rows.foldl (processRow env) st).newFilms = st.newFilms ∧
     (rows.foldl (processRow env) st).changed = st.changed) := by
  intro rows
  induction rows with
  | nil => intro st _; exact ⟨rfl, rfl, rfl⟩
  | cons row rest ih =>
    intro st hs
    rw [SettledRec] at hs
    obtain ⟨hrow, hrest⟩ := hs
    rw [List.foldl_cons]
    cases h : row.imdb_id with
    | none =>
      rw [processRow_blank h]
      apply ih st
      rwa [stepProcessed, h] at hrest
    | some id =>
      by_cases he : id = ""
      · rw [stepProcessed_some h, he, stepProcessedId, if_pos rfl] at hrest
        rw [he] at h
        rw [processRow_empty h]
        exact ih st hrest
      · by_cases hd : st.processed.contains id = true
        · rw [processRow_dup h he hd]
          apply ih st
          rwa [stepProcessed_some h, stepProcessedId, if_neg he, if_pos hd] at hrest
        · have hdf := Bool.eq_false_iff.mpr hd
          rw [stepProcessed_some h, stepProcessedId, if_neg he, if_neg hd] at hrest
          cases hfind : findLast? (fpred id) st.films with
          | some film =>
            have hset := (hrow id h he hdf).1 film hfind
            rw [processRow_existing h he hdf hfind]
            have hfilms : updateLast (fpred id)
                (fun _ => (existingStep env row id film).1) st.films = st.films :=
              updateLast_fix hfind hset
            have hch : (if (existingStep env row id film).1 = film
                then st.changed else true) = st.changed := if_pos hset
            rw [hfilms, hch]
            exact ih _ hrest
          | none =>
            have homdb := (hrow id h he hdf).2 hfind
            rw [processRow_nofetch h he hdf hfind homdb]
            exact ih _ hrest

/-! ### After a pass, every sheet row is settled against the final catalog -/

theorem settle (env : Env) (hwf : OmdbEcho env) :
    ∀ (rows : List Row) (st : SyncState), NFinv st →
    SettledRec env (finalFilms (rows.foldl (processRow env) st)) st.processed rows := by
  intro rows
  induction rows with
  | nil => intro st _; rw [SettledRec]; trivial
  | cons row rest ih =>
    intro st hnf
    rw [List.foldl_cons, SettledRec]
    cases h : row.imdb_id with
    | none =>
      constructor
      · intro id hid
        rw [h] at hid
        cases hid
      · rw [stepProcessed, h, processRow_blank h]
        exact ih st hnf
    | some id =>
      by_cases he : id = ""
      · constructor
        · intro id2 hid2 hne2
          rw [h] at hid2
          injection hid2 with hid3
          rw [he] at hid3
          exact absurd hid3.symm hne2
        · rw [stepProcessed_some h, he, stepProcessedId, if_pos rfl]
          rw [he] at h
          rw [processRow_empty h]
          exact ih st hnf
      · by_cases hd : st.processed.contains id = true
        · constructor
          · intro id2 hid2 _ hdf2
            rw [h] at hid2
            injection hid2 with hid3
            rw [← hid3, hd] at hdf2
            cases hdf2
          · rw [stepProcessed_some h, stepProcessedId, if_neg he, if_pos hd,
              processRow_dup h he hd]
            exact ih st hnf
        · have hdf := Bool.eq_false_iff.mpr hd
          have hnew_none : findLast? (fpred id) st.newFilms = none := by
            rw [findLast?_eq_none_iff]
            intro f hf
            obtain ⟨j, hj, hcj⟩ := hnf f hf
            refine fpred_false (fun hc => ?_)
            rw [hj] at hc
            injection hc with hc2
            rw [hc2] at hcj
            exact hd hcj
          cases hfind : findLast? (fpred id) st.films with
          | some film =>
            rw [processRow_existing h he hdf hfind]
            have hfilm : film.imdbID = some id := fpred_iff.mp (findLast?_some_prop hfind)
            have hcontains : ({ st with
                films := updateLast (fpred id)
                  (fun _ => (existingStep env row id film).1) st.films
                processed := st.processed ++ [id]
                changed := if (existingStep env row id film).1 = film
                  then st.changed else true
                tmdbLog := st.tmdbLog ++
                  (if (existingStep env row id film).2 then [id] else [])
              } : SyncState).processed.contains id = true :=
              contains_append_self st.processed id
            have hkey : findLast? (fpred id)
                (finalFilms (rest.foldl (processRow env)
                  { st with
                    films := updateLast (fpred id)
                      (fun _ => (existingStep env row id film).1) st.films
                    processed := st.processed ++ [id]
                    changed := if (existingStep env row id film).1 = film
                      then st.changed else true
                    tmdbLog := st.tmdbLog ++
                      (if (existingStep env row id film).2 then [id] else []) })) =
                some (existingStep env row id film).1 := by
              rw [frame_fold env hwf rest _ hcontains]
              show findLast? (fpred id)
                (updateLast (fpred id) (fun _ => (existingStep env row id film).1) st.films
                  ++ st.newFilms) = _
              rw [findLast?_append_or, hnew_none,
                findLast?_updateLast hfind (by
                  rw [fpred_iff, existingStep_imdbID, hfilm])]
              rfl
            constructor
            · intro id2 hid2 _ _
              rw [h] at hid2
              injection hid2 with hid3
              rw [← hid3]
              constructor
              · intro film2 hfind2
                rw [hkey] at hfind2
                injection hfind2 with hfe
                rw [← hfe]
                exact existingStep_idem env row id film
              · intro hcon
                rw [hkey] at hcon
                cases hcon
            · rw [stepProcessed_some h, stepProcessedId, if_neg he, if_neg hd]
              apply ih
              intro f hf
              obtain ⟨j, hj, hcj⟩ := hnf f hf
              exact ⟨j, hj, contains_append_left hcj⟩
          | none =>
            cases homdb : get_omdb_film_details env.omdbKey (env.omdb id) with
            | none =>
              rw [processRow_nofetch h he hdf hfind homdb]
              have hkey : findLast? (fpred id)
                  (finalFilms (rest.foldl (processRow env)
                    { st with processed := st.processed ++ [id] })) = none := by
                rw [frame_fold env hwf rest _ (contains_append_self st.processed id)]
                show findLast? (fpred id) (st.films ++ st.newFilms) = none
                rw [findLast?_append_or, hnew_none, hfind]
                rfl
              constructor
              · intro id2 hid2 _ _
                rw [h] at hid2
                injection hid2 with hid3
                rw [← hid3]
                constructor
                · intro film2 hfind2
                  rw [hkey] at hfind2
                  cases hfind2
                · intro _
                  exact homdb
              · rw [stepProcessed_some h, stepProcessedId, if_neg he, if_neg hd]
                apply ih
                intro f hf
                obtain ⟨j, hj, hcj⟩ := hnf f hf
                exact ⟨j, hj, contains_append_left hcj⟩
            | some d =>
              rw [processRow_new h he hdf hfind homdb]
              have hbn : ((buildNewFilm env row id d).1).imdbID = some id := by
                rw [buildNewFilm_imdbID]
                exact hwf id d (get_omdb_some homdb)
              have hkey : findLast? (fpred id)
                  (finalFilms (rest.foldl (processRow env)
                    { st with
                      processed := st.processed ++ [id]
                      newFilms := st.newFilms ++ [(buildNewFilm env row id d).1]
                      changed := true
                      tmdbLog := st.tmdbLog ++
                        (if (buildNewFilm env row id d).2 then [id] else []) })) =
                  some (buildNewFilm env row id d).1 := by
                rw [frame_fold env hwf rest _ (contains_append_self st.processed id)]
                show findLast? (fpred id)
                  (st.films ++ (st.newFilms ++ [(buildNewFilm env row id d).1])) = _
                rw [← List.append_assoc, findLast?_append_single,
                  if_pos (fpred_iff.mpr hbn)]
              constructor
              · intro id2 hid2 _ _
                rw [h] at hid2
                injection hid2 with hid3
                rw [← hid3]
                constructor
                · intro film2 hfind2
                  rw [hkey] at hfind2
                  injection hfind2 with hfe
                  rw [← hfe]
                  exact buildNewFilm_fix env row id d
                · intro hcon
                  rw [hkey] at hcon
                  cases hcon
              · rw [stepProcessed_some h, stepProcessedId, if_neg he, if_neg hd]
                apply ih
                intro f hf
                rcases List.mem_append.mp hf with h2 | h2
                · obtain ⟨j, hj, hcj⟩ := hnf f h2
                  exact ⟨j, hj, contains_append_left hcj⟩
                · rw [List.mem_singleton.mp h2]
                  exact ⟨id, hbn, contains_append_self st.processed id⟩

/-- Core idempotence of `update_json_from_sheet`: a second pass over the same
sheet with the same provider responses reproduces the catalog of the first
pass and detects no changes. -/
theorem runPass_idem (env : Env) (hwf : OmdbEcho env) (sheet : List Row)
    (films : List Film) :
    (runPass env sheet (runPass env sheet films).films).films =
      (runPass env sheet films).films ∧
    (runPass env sheet (runPass env sheet films).films).changed = false := by
  have hnf0 : NFinv { films := films } := by
    intro f hf
    exact absurd hf (List.not_mem_nil f)
  have hset := settle env hwf sheet { films := films } hnf0
  have habs := absorb env sheet
    { films := finalFilms (sheet.foldl (processRow env) { films := films }) } hset
  refine ⟨?_, ?_⟩
  · show (sheet.foldl (processRow env)
        { films := (runPass env sheet films).films }).films ++
      (sheet.foldl (processRow env)
        { films := (runPass env sheet films).films }).newFilms = _
    have h1 : (runPass env sheet films).films =
        finalFilms (sheet.foldl (processRow env) { films := films }) := rfl
    rw [h1, habs.1, habs.2.1]
    exact List.append_nil _
  · show (sheet.foldl (processRow env)
        { films := (runPass env sheet films).films }).changed = false
    have h1 : (runPass env sheet films).films =
        finalFilms (sheet.foldl (processRow env) { films := films }) := rfl
    rw [h1, habs.2.2]

/-! ### At-most-once Secondary Provider invocation -/

theorem existingStep_invoked_iff (env : Env) (row : Row) (id : String) (f : Film) :
    (existingStep env row id f).2 = true ↔
      (f.tmdbFetched ≠ some true ∧ pyTruthy env.tmdbToken = true) := by
  rw [existingStep]
  exact tmdbStep_invoked_iff env id _

theorem buildNewFilm_invoked_noToken {env : Env} (hf : pyTruthy env.tmdbToken = false)
    (row : Row) (id : String) (d : OmdbData) : (buildNewFilm env row id d).2 = false := by
  rw [buildNewFilm]
  show (if pyTruthy env.tmdbToken = true then _ else (_, false)).2 = false
  rw [if_neg (by simp [hf])]

theorem processRow_tmdbLog_noToken {env : Env} (hf : pyTruthy env.tmdbToken = false)
    (st : SyncState) (row : Row) :
    (processRow env st row).tmdbLog = st.tmdbLog := by
  cases h : row.imdb_id with
  | none => rw [processRow_blank h]
  | some id =>
    by_cases he : id = ""
    · rw [he] at h
      rw [processRow_empty h]
    · by_cases hd : st.processed.contains id = true
      · rw [processRow_dup h he hd]
      · have hdf := Bool.eq_false_iff.mpr hd
        cases hfind : findLast? (fpred id) st.films with
        | some film =>
          rw [processRow_existing h he hdf hfind]
          show st.tmdbLog ++ (if (existingStep env row id film).2 then [id] else []) = _
          have hinv : (existingStep env row id film).2 = false := by
            cases hb : (existingStep env row id film).2 with
            | false => rfl
            | true =>
              have := ((existingStep_invoked_iff env row id film).mp hb).2
              rw [this] at hf
              cases hf
          rw [hinv]
          show st.tmdbLog ++ [] = st.tmdbLog
          exact List.append_nil _
        | none =>
          cases homdb : get_omdb_film_details env.omdbKey (env.omdb id) with
          | none => rw [processRow_nofetch h he hdf hfind homdb]
          | some d =>
            rw [processRow_new h he hdf hfind homdb]
            show st.tmdbLog ++ (if (buildNewFilm env row id d).2 then [id] else []) = _
            rw [buildNewFilm_invoked_noToken hf]
            show st.tmdbLog ++ [] = st.tmdbLog
            exact List.append_nil _

theorem fold_tmdbLog_noToken {env : Env} (hf : pyTruthy env.tmdbToken = false) :
    ∀ (rows : List Row) (st : SyncState),
    (rows.foldl (processRow env) st).tmdbLog = st.tmdbLog := by
  intro rows
  induction rows with
  | nil => intro st; rfl
  | cons row rest ih =>
    intro st
    rw [List.foldl_cons, ih, processRow_tmdbLog_noToken hf]

/-- Invariant carried through a pass for one identifier whose record already
has the enrichment flag, under a configured token: every indexed record with
that identifier keeps the flag, the identifier stays present, pending new
records all carry the flag, and the identifier never enters the TMDb trace. -/
def C2Inv (_env : Env) (id : String) (st : SyncState) : Prop :=
  (∀ f ∈ st.films, f.imdbID = some id → f.tmdbFetched = some true) ∧
  (∃ f ∈ st.films, f.imdbID = some id) ∧
  (∀ f ∈ st.newFilms, f.tmdbFetched = some true) ∧
  id ∉ st.tmdbLog

theorem c2_step {env : Env} (ht : pyTruthy env.tmdbToken = true) (id : String)
    (st : SyncState) (row : Row) (hinv : C2Inv env id st) :
    C2Inv env id (processRow env st row) := by
  obtain ⟨hall, hex, hnew, hlog⟩ := hinv
  cases h : row.imdb_id with
  | none => rw [processRow_blank h]; exact ⟨hall, hex, hnew, hlog⟩
  | some j =>
    by_cases he : j = ""
    · rw [he] at h
      rw [processRow_empty h]
      exact ⟨hall, hex, hnew, hlog⟩
    · by_cases hd : st.processed.contains j = true
      · rw [processRow_dup h he hd]
        exact ⟨hall, hex, hnew, hlog⟩
      · have hdf := Bool.eq_false_iff.mpr hd
        cases hfind : findLast? (fpred j) st.films with
        | some film =>
          rw [processRow_existing h he hdf hfind]
          have hfilmj : film.imdbID = some j := fpred_iff.mp (findLast?_some_prop hfind)
          have hflag3 : ((existingStep env row j film).1).tmdbFetched = some true :=
            existingStep_flag_token ht row j film
          refine ⟨?_, ?_, hnew, ?_⟩
          · intro x hx hxid
            rcases mem_updateLast hx with h1 | ⟨a, _, _, hxa⟩
            · exact hall x h1 hxid
            · rw [hxa]
              exact hflag3
          · by_cases hji : j = id
            · refine ⟨(existingStep env row j film).1, ?_, ?_⟩
              · exact findLast?_some_mem (findLast?_updateLast hfind
                  (by rw [fpred_iff, existingStep_imdbID, hfilmj]))
              · rw [existingStep_imdbID, hfilmj, hji]
            · obtain ⟨f0, hf0, hf0id⟩ := hex
              exact ⟨f0, mem_updateLast_of_not hf0
                (fpred_false (by rw [hf0id]; exact some_ne_of_ne (fun hc => hji hc.symm))),
                hf0id⟩
          · intro hmem
            rcases List.mem_append.mp hmem with h1 | h1
            · exact hlog h1
            · by_cases hji : j = id
              · have hft : film.tmdbFetched = some true := by
                  apply hall film (findLast?_some_mem hfind)
                  rw [hfilmj, hji]
                have hinvok : (existingStep env row j film).2 = false := by
                  cases hb : (existingStep env row j film).2 with
                  | false => rfl
                  | true =>
                    exact absurd hft ((existingStep_invoked_iff env row j film).mp hb).1
                rw [hinvok] at h1
                simp at h1
              · split at h1
                · rw [List.mem_singleton] at h1
                  exact hji h1.symm
                · simp at h1
        | none =>
          cases homdb : get_omdb_film_details env.omdbKey (env.omdb j) with
          | none =>
            rw [processRow_nofetch h he hdf hfind homdb]
            exact ⟨hall, hex, hnew, hlog⟩
          | some d =>
            rw [processRow_new h he hdf hfind homdb]
            have hji : j ≠ id := by
              intro hc
              obtain ⟨f0, hf0, hf0id⟩ := hex
              have : fpred j f0 = false := by
                have := findLast?_eq_none_iff.mp hfind f0 hf0
                exact this
              rw [fpred, hf0id, hc] at this
              simp at this
            refine ⟨hall, hex, ?_, ?_⟩
            · intro f hf
              rcases List.mem_append.mp hf with h1 | h1
              · exact hnew f h1
              · rw [List.mem_singleton.mp h1]
                exact buildNewFilm_flag_token ht row j d
            · intro hmem
              rcases List.mem_append.mp hmem with h1 | h1
              · exact hlog h1
              · split at h1
                · rw [List.mem_singleton] at h1
                  exact hji h1.symm
                · simp at h1

theorem c2_fold {env : Env} (ht : pyTruthy env.tmdbToken = true) (id : String) :
    ∀ (rows : List Row) (st : SyncState), C2Inv env id st →
    C2Inv env id (rows.foldl (processRow env) st) := by
  intro rows
  induction rows with
  | nil => intro st hinv; exact hinv
  | cons row rest ih =>
    intro st hinv
    rw [List.foldl_cons]
    exact ih _ (c2_step ht id st row hinv)

theorem runPass_no_invocation {env : Env} {id : String}
    (ht : pyTruthy env.tmdbToken = true) (sheet : List Row) {films : List Film}
    (hall : ∀ f ∈ films, f.imdbID = some id → f.tmdbFetched = some true)
    (hex : ∃ f ∈ films, f.imdbID = some id) :
    id ∉ (runPass env sheet films).tmdbLog ∧
    (∀ f ∈ (runPass env sheet films).films,
      f.imdbID = some id → f.tmdbFetched = some true) ∧
    (∃ f ∈ (runPass env sheet films).films, f.imdbID = some id) := by
  have hinv0 : C2Inv env id { films := films } := by
    refine ⟨hall, hex, ?_, ?_⟩
    · intro f hf
      exact absurd hf (List.not_mem_nil f)
    · intro hc
      exact absurd hc (List.not_mem_nil id)
  have hinv := c2_fold ht id sheet { films := films } hinv0
  obtain ⟨hall1, hex1, hnew1, hlog1⟩ := hinv
  refine ⟨hlog1, ?_, ?_⟩
  · intro f hf hfid
    rcases List.mem_append.mp hf with h1 | h1
    · exact hall1 f h1 hfid
    · exact hnew1 f h1
  · obtain ⟨f0, hf0, hf0id⟩ := hex1
    exact ⟨f0, List.mem_append_left _ hf0, hf0id⟩

theorem runPass_tmdbLog_noToken {env : Env} (hf : pyTruthy env.tmdbToken = false)
    (sheet : List Row) (films : List Film) :
    (runPass env sheet films).tmdbLog = [] := by
  show (sheet.foldl (processRow env) { films := films }).tmdbLog = []
  rw [fold_tmdbLog_noToken hf]

/-! ### Frame property of the merge for an untouched member (C5) -/

theorem userStep_filter_other {row : Row} {u v : String}
    (huv : lowerStr v ≠ lowerStr u) (es : List RatingEntry) :
    (userStep row es v).filter (matchesUser (lowerStr u)) =
      es.filter (matchesUser (lowerStr u)) := by
  by_cases hc1 : (row.cells v).ratingPresent = false ∧ (row.cells v).blurbPresent = false
  · rw [userStep_skip1 hc1]
  · by_cases hc2 : row.ratingVal v = none ∧ row.blurbVal v = none
    · rw [userStep_skip2 hc2.1 hc2.2]
    · have hdisj : ∀ e : RatingEntry,
          matchesUser (lowerStr v) e = true → matchesUser (lowerStr u) e = false := by
        intro e he
        have hev : lowerStr e.user = lowerStr v := eq_of_beq he
        rw [show matchesUser (lowerStr u) e = (lowerStr e.user == lowerStr u) from rfl, hev]
        exact beq_eq_false_iff_ne.mpr huv
      by_cases hany : es.any (matchesUser (lowerStr v)) = true
      · rw [userStep_eq_update hc1 hc2 hany]
        exact filter_updateLast_disj (fun e _ hpe => hdisj e hpe)
          (fun e _ hpe => by
            rw [matchesUser_scoreWrite]
            exact hdisj e hpe)
      · rw [userStep_eq_append hc1 hc2 (Bool.eq_false_iff.mpr hany)]
        rw [List.filter_append]
        have : List.filter (matchesUser (lowerStr u))
            [{ user := v, score := normScore (row.ratingVal v),
               blurb := row.blurbVal v }] = [] := by
          rw [List.filter_cons]
          rw [if_neg (by
            show ¬ ((lowerStr v == lowerStr u) = true)
            rw [beq_eq_false_iff_ne.mpr huv]
            simp)]
          rfl
        rw [this, List.append_nil]

theorem merge_filter_frame {row : Row} {u : String}
    (hr : row.ratingVal u = none) (hb : row.blurbVal u = none) :
    ∀ (us : List String), (∀ v ∈ us, v = u ∨ lowerStr v ≠ lowerStr u) →
    ∀ (es : List RatingEntry),
    (us.foldl (userStep row) es).filter (matchesUser (lowerStr u)) =
      es.filter (matchesUser (lowerStr u)) := by
  intro us
  induction us with
  | nil => intro _ es; rfl
  | cons v rest ih =>
    intro hvs es
    rw [List.foldl_cons]
    rcases hvs v (List.mem_cons_self _ _) with h1 | h1
    · rw [h1, userStep_skip2 hr hb]
      exact ih (fun w hw => hvs w (List.mem_cons_of_mem _ hw)) es
    · rw [ih (fun w hw => hvs w (List.mem_cons_of_mem _ hw)) _,
        userStep_filter_other h1 es]

theorem users_pair_property :
    ∀ u ∈ users, ∀ v ∈ users, v = u ∨ lowerStr v ≠ lowerStr u := by
  decide

/-! ### Nodup preservation of the merge (C9) -/

theorem userStep_nodup {row : Row} {u : String} {es : List RatingEntry}
    (h : (es.map (fun e => lowerStr e.user)).Nodup) :
    ((userStep row es u).map (fun e => lowerStr e.user)).Nodup := by
  by_cases hc1 : (row.cells u).ratingPresent = false ∧ (row.cells u).blurbPresent = false
  · rwa [userStep_skip1 hc1]
  · by_cases hc2 : row.ratingVal u = none ∧ row.blurbVal u = none
    · rwa [userStep_skip2 hc2.1 hc2.2]
    · by_cases hany : es.any (matchesUser (lowerStr u)) = true
      · rw [userStep_eq_update hc1 hc2 hany]
        rwa [map_updateLast (fun e => by rw [scoreWrite_user])]
      · rw [userStep_eq_append hc1 hc2 (Bool.eq_false_iff.mpr hany)]
        rw [List.map_append]
        rw [List.nodup_append]
        refine ⟨h, by simp, ?_⟩
        intro x hx hxm
        have hanyf := Bool.eq_false_iff.mpr hany
        rw [List.any_eq_false] at hanyf
        rcases List.mem_map.mp hx with ⟨e, he, hex⟩
        have := hanyf e he
        simp only [matchesUser] at this
        have hne : lowerStr e.user ≠ lowerStr u := by
          intro hc
          rw [show (lowerStr e.user == lowerStr u) = true from beq_iff_eq.mpr hc] at this
          exact this rfl
        have hxu : x = lowerStr u := by
          simpa using hxm
        exact hne (hex.trans hxu)

theorem merge_nodup {row : Row} :
    ∀ (us : List String) (es : List RatingEntry),
    (es.map (fun e => lowerStr e.user)).Nodup →
    ((us.foldl (userStep row) es).map (fun e => lowerStr e.user)).Nodup := by
  intro us
  induction us with
  | nil => intro es h; exact h
  | cons v rest ih =>
    intro es h
    rw [List.foldl_cons]
    exact ih _ (userStep_nodup h)

/-! ## Claim theorems -/

/-- Equation form of `normScore` on a present cell. -/
theorem normScore_some_eq (s : String) :
    normScore (some s) =
      match pyFloat s with
      | some q => if q.den = 1 then ScoreVal.int q.num else ScoreVal.dec q
      | none => ScoreVal.str s := rfl

/-- C7: score normalization — a NaN cell normalizes to null; `"8"` is stored
as integer 8; `"7.5"` as the decimal 15/2; `"n/a"` as the raw string; in
general a parsed whole number is stored as an integer, a parsed non-whole
number as a decimal, and an unparsable value as the raw text. -/
theorem C7_score_normalization :
    (normScore none = ScoreVal.null) ∧
    (normScore (some "8") = ScoreVal.int 8) ∧
    (normScore (some "7.5") = ScoreVal.dec (15 / 2 : ℚ)) ∧
    (normScore (some "n/a") = ScoreVal.str "n/a") ∧
    (∀ (s : String) (q : ℚ), pyFloat s = some q → q.den = 1 →
      normScore (some s) = ScoreVal.int q.num) ∧
    (∀ (s : String) (q : ℚ), pyFloat s = some q → q.den ≠ 1 →
      normScore (some s) = ScoreVal.dec q) ∧
    (∀ s : String, pyFloat s = none → normScore (some s) = ScoreVal.str s) := by
  refine ⟨rfl, by decide, ?_, by decide, ?_, ?_, ?_⟩
  · have h1 : normScore (some "7.5") = ScoreVal.dec (mkRat 15 2) := by decide
    rw [h1]
    congr 1
    rw [Rat.mkRat_eq_div]
    norm_num
  · intro s q h hden
    rw [normScore_some_eq, h]
    show (if q.den = 1 then ScoreVal.int q.num else ScoreVal.dec q) = ScoreVal.int q.num
    rw [if_pos hden]
  · intro s q h hden
    rw [normScore_some_eq, h]
    show (if q.den = 1 then ScoreVal.int q.num else ScoreVal.dec q) = ScoreVal.dec q
    rw [if_neg hden]
  · intro s h
    rw [normScore_some_eq, h]

/-- C7 witness: the general clauses applied at concrete inputs. -/
theorem C7_score_normalization_witness :
    normScore (some "10.0") = ScoreVal.int 10 ∧
    normScore (some "-2.25") = ScoreVal.dec (mkRat (-9) 4) ∧
    normScore (some "five") = ScoreVal.str "five" :=
  ⟨C7_score_normalization.2.2.2.2.1 "10.0" (mkRat 10 1) (by decide) (by decide),
   C7_score_normalization.2.2.2.2.2.1 "-2.25" (mkRat (-9) 4) (by decide) (by decide),
   C7_score_normalization.2.2.2.2.2.2 "five" (by decide)⟩

/-- C10: the Key Transcoder is idempotent — applying
`transform_keys_to_camel_case` twice to any JSON-like value yields exactly
the result of applying it once, and scalars are never altered. -/
theorem C10_key_transcoder_idempotent :
    (∀ d : JData,
      transform_keys_to_camel_case (transform_keys_to_camel_case d) =
        transform_keys_to_camel_case d) ∧
    (∀ a : String, transform_keys_to_camel_case (JData.atom a) = JData.atom a) :=
  ⟨transform_idem, fun _ => rfl⟩

/-- C9: the Rating Merge Engine preserves the at-most-one-entry-per-member
invariant — if the input collection has no two entries whose member
identifiers agree case-insensitively, neither does the merged output. -/
theorem C9_at_most_one_entry_per_member (row : Row) (es : List RatingEntry)
    (h : (es.map (fun e => lowerStr e.user)).Nodup) :
    ((mergeRatings row es).map (fun e => lowerStr e.user)).Nodup := by
  rw [mergeRatings]
  exact merge_nodup users es h

/-- Sample row for merge witnesses: `andy`'s cells empty, `gabe`'s populated. -/
def rowMerge : Row :=
  { imdb_id := some "tt1"
    cells := fun u =>
      if u = "gabe" then
        { ratingPresent := true, rating := some "9", blurbPresent := true,
          blurb := some "wow" }
      else { ratingPresent := true, blurbPresent := true } }

/-- Sample prior entries for merge witnesses. -/
def esMerge : List RatingEntry :=
  [{ user := "Andy", score := ScoreVal.int 7, blurb := some "fine" },
   { user := "gabe", score := ScoreVal.int 5, blurb := none }]

/-- C9 witness. -/
theorem C9_at_most_one_entry_per_member_witness :
    ((mergeRatings rowMerge esMerge).map (fun e => lowerStr e.user)).Nodup :=
  C9_at_most_one_entry_per_member rowMerge esMerge (by decide)

/-- C5: for a roster member whose rating and blurb cells are both
empty/missing, the member's existing entries survive the merge byte-for-byte
(the sub-list of entries matching that member is unchanged), even while other
members' populated cells change their entries. -/
theorem C5_merge_preserves_absent_member (row : Row) (es : List RatingEntry)
    (u : String) (hu : u ∈ users)
    (hr : row.ratingVal u = none) (hb : row.blurbVal u = none) :
    (mergeRatings row es).filter (matchesUser (lowerStr u)) =
      es.filter (matchesUser (lowerStr u)) := by
  rw [mergeRatings]
  exact merge_filter_frame hr hb users (users_pair_property u hu) es

/-- C5 witness: `andy`'s entry survives unchanged while `gabe`'s cells are
populated in the same row (and do change `gabe`'s entry). -/
theorem C5_merge_preserves_absent_member_witness :
    (mergeRatings rowMerge esMerge).filter (matchesUser (lowerStr "andy")) =
      esMerge.filter (matchesUser (lowerStr "andy")) :=
  C5_merge_preserves_absent_member rowMerge esMerge "andy" (by decide)
    (by decide) (by decide)

/-- C4 (amended): a row whose identifier cell is empty (`""`) or a
missing-value sentinel (`None`/NaN) is discarded and leaves the state — the
catalog in particular — completely unchanged.  (Whitespace-only identifiers
are NOT treated as absent: they pass the truthiness check and reach the
provider lookup; see the counterexample.) -/
theorem C4_blank_identifier_row_is_noop (env : Env) (st : SyncState) (row : Row)
    (h : row.imdb_id = none ∨ row.imdb_id = some "") :
    processRow env st row = st := by
  rcases h with h | h
  · exact processRow_blank h
  · exact processRow_empty h

/-- Environment for the C4 counterexample: OMDB answers for the
whitespace-only identifier. -/
def envC4 : Env :=
  { omdbKey := some "k"
    tmdbToken := none
    omdb := fun i => if i = "   " then
        OmdbResp.ok { imdbID := some "   ", fields := [("title", "W")] }
      else OmdbResp.transportError
    tmdb := fun _ => none }

/-- Row with a whitespace-only identifier cell. -/
def rowC4 : Row := { imdb_id := some "   " }

/-- C4 counterexample: a whitespace-only identifier is NOT discarded — the
row reaches the Primary Provider and creates a record, so the catalog does
not stay unchanged as the claim states. -/
theorem C4_whitespace_identifier_not_discarded :
    (runPass envC4 [rowC4] []).films ≠ [] := by
  decide

/-- C4 witness. -/
theorem C4_blank_identifier_row_is_noop_witness :
    processRow envC4 { films := [] } { imdb_id := some "" } = { films := [] } :=
  C4_blank_identifier_row_is_noop envC4 { films := [] } { imdb_id := some "" }
    (Or.inr rfl)

/-- C6: updating an existing record's ClubInfo from a row — the stored watch
date and selector are overwritten only when the row supplies a non-empty
value that differs from what is stored (empty cells never overwrite), while
trophy notes follow the sheet whenever the trophy-notes column is present,
including being cleared to null over previously stored text. -/
theorem C6_existing_clubinfo_update_rules (row : Row) (ci : ClubInfo) :
    (pyTruthy row.watch_date = false →
      (updateClubInfo row ci).watchDate = ci.watchDate) ∧
    (pyTruthy row.watch_date = true → pyGet ci.watchDate = row.watch_date →
      (updateClubInfo row ci).watchDate = ci.watchDate) ∧
    (pyTruthy row.watch_date = true → pyGet ci.watchDate ≠ row.watch_date →
      (updateClubInfo row ci).watchDate = some row.watch_date) ∧
    (pyTruthy row.selected_by = false →
      (updateClubInfo row ci).selector = ci.selector) ∧
    (pyTruthy row.selected_by = true → pyGet ci.selector = row.selected_by →
      (updateClubInfo row ci).selector = ci.selector) ∧
    (pyTruthy row.selected_by = true → pyGet ci.selector ≠ row.selected_by →
      (updateClubInfo row ci).selector = some row.selected_by) ∧
    (row.trophyPresent = true →
      pyGet (updateClubInfo row ci).trophyNotes = row.trophy_notes) ∧
    (row.trophyPresent = true → row.trophy_notes = none →
      ∀ t : String, ci.trophyNotes = some (some t) →
      (updateClubInfo row ci).trophyNotes = some none) ∧
    (row.trophyPresent = false →
      (updateClubInfo row ci).trophyNotes = ci.trophyNotes) := by
  have hw : (updateClubInfo row ci).watchDate = updWatchVal row ci.watchDate := rfl
  have hs : (updateClubInfo row ci).selector = updSelVal row ci.selector := rfl
  have htr : (updateClubInfo row ci).trophyNotes = updTrophyVal row ci.trophyNotes := rfl
  refine ⟨?_, ?_, ?_, ?_, ?_, ?_, ?_, ?_, ?_⟩
  · intro h
    rw [hw, updWatchVal, if_neg (fun hc => by rw [h] at hc; exact absurd hc.1 (by simp))]
  · intro _ h2
    rw [hw, updWatchVal, if_neg (fun hc => hc.2 h2)]
  · intro h1 h2
    rw [hw, updWatchVal, if_pos ⟨h1, h2⟩]
  · intro h
    rw [hs, updSelVal, if_neg (fun hc => by rw [h] at hc; exact absurd hc.1 (by simp))]
  · intro _ h2
    rw [hs, updSelVal, if_neg (fun hc => hc.2 h2)]
  · intro h1 h2
    rw [hs, updSelVal, if_pos ⟨h1, h2⟩]
  · intro hp
    rw [htr, updTrophyVal, if_pos hp]
    by_cases he : pyGet ci.trophyNotes = row.trophy_notes
    · rw [if_pos he]
      exact he
    · rw [if_neg he]
      rfl
  · intro hp hcell t hstored
    rw [htr, updTrophyVal, if_pos hp, if_neg (by
      rw [hstored, hcell]
      simp [pyGet]), hcell]
  · intro hp
    rw [htr, updTrophyVal, if_neg (by rw [hp]; simp)]

/-- C6 witness: trophy notes previously holding text are cleared to null by a
present-but-empty cell, while an empty watch-date cell leaves the stored
watch date untouched. -/
theorem C6_existing_clubinfo_update_rules_witness :
    (updateClubInfo { trophyPresent := true }
        { watchDate := some (some "2024-01-01"), trophyNotes := some (some "best") }
      ).trophyNotes = some none ∧
    (updateClubInfo { trophyPresent := true }
        { watchDate := some (some "2024-01-01"), trophyNotes := some (some "best") }
      ).watchDate = some (some "2024-01-01") :=
  ⟨(C6_existing_clubinfo_update_rules { trophyPresent := true }
      { watchDate := some (some "2024-01-01"),
        trophyNotes := some (some "best") }).2.2.2.2.2.2.2.1
      rfl rfl "best" rfl,
   (C6_existing_clubinfo_update_rules { trophyPresent := true }
      { watchDate := some (some "2024-01-01"),
        trophyNotes := some (some "best") }).1 rfl⟩

/-- C8: any Primary Provider failure — missing credential, transport error,
non-success HTTP status, API-level error response, or a malformed body —
yields "no data"; a new-record row with no data is abandoned with nothing
added to the catalog beyond marking the identifier processed, and the fold
simply continues with the remaining rows. -/
theorem C8_primary_failure_row_abandoned :
    (∀ (resp : OmdbResp) (key : Option String), pyTruthy key = false →
      get_omdb_film_details key resp = none) ∧
    (∀ key : Option String,
      get_omdb_film_details key OmdbResp.transportError = none ∧
      get_omdb_film_details key OmdbResp.badStatus = none ∧
      get_omdb_film_details key OmdbResp.apiFalse = none ∧
      get_omdb_film_details key OmdbResp.decodeError = none) ∧
    (∀ (env : Env) (st : SyncState) (row : Row) (id : String),
      row.imdb_id = some id → id ≠ "" → st.processed.contains id = false →
      findLast? (fpred id) st.films = none →
      get_omdb_film_details env.omdbKey (env.omdb id) = none →
      processRow env st row = { st with processed := st.processed ++ [id] }) ∧
    (∀ (env : Env) (st : SyncState) (row : Row) (rest : List Row),
      (row :: rest).foldl (processRow env) st =
        rest.foldl (processRow env) (processRow env st row)) := by
  refine ⟨?_, ?_, ?_, ?_⟩
  · intro resp key h
    rw [get_omdb_film_details.eq_def, if_neg (by rw [h]; simp)]
  · intro key
    refine ⟨?_, ?_, ?_, ?_⟩ <;>
      · rw [get_omdb_film_details]
        split <;> rfl
  · intro env st row id h hne hdup hfind homdb
    exact processRow_nofetch h hne hdup hfind homdb
  · intro env st row rest
    rw [List.foldl_cons]

/-- Environment whose Primary Provider always fails at the transport level. -/
def envFail : Env :=
  { omdbKey := some "k"
    tmdbToken := none
    omdb := fun _ => OmdbResp.transportError
    tmdb := fun _ => none }

/-- C8 witness: a failing lookup leaves the catalog empty and only marks the
row processed. -/
theorem C8_primary_failure_row_abandoned_witness :
    processRow envFail { films := [] } { imdb_id := some "tt9" } =
      { films := [], processed := ["tt9"] } :=
  C8_primary_failure_row_abandoned.2.2.1 envFail { films := [] }
    { imdb_id := some "tt9" } "tt9" rfl (by decide) rfl rfl rfl

/-- A new record built without a Secondary credential: OMDB payload, flag
`False`, club info from the row, no crew fields merged. -/
theorem buildNewFilm_noToken {env : Env} (hf : pyTruthy env.tmdbToken = false)
    (row : Row) (id : String) (d : OmdbData) :
    (buildNewFilm env row id d).1 =
      { imdbID := d.imdbID, fields := d.fields, tmdbFetched := some false,
        movieClubInfo := some (initClub row) } := by
  simp only [buildNewFilm]
  rw [if_neg (by rw [hf]; simp)]

/-- C1 (amended): starting from an empty catalog, a single row with a valid
identifier for which the Primary Provider returns data, with no Secondary
credential configured, yields exactly one record whose enrichment flag is
FALSE (not true as the claim states — line 291 sets it `True` only inside the
`if tmdb_bearer_token:` block), with no crew fields added (the fields are
exactly the Primary payload) and ClubInfo populated from the row. -/
theorem C1_new_record_without_secondary (env : Env) (row : Row) (id : String)
    (d : OmdbData) (hid : row.imdb_id = some id) (hne : id ≠ "")
    (htok : pyTruthy env.tmdbToken = false)
    (homdb : get_omdb_film_details env.omdbKey (env.omdb id) = some d) :
    (runPass env [row] []).films =
      [{ imdbID := d.imdbID, fields := d.fields, tmdbFetched := some false,
         movieClubInfo := some (initClub row) }] ∧
    (runPass env [row] []).changed = true := by
  have hc : (([] : List String).contains id) = false := rfl
  have hfind : findLast? (fpred id) ([] : List Film) = none := rfl
  constructor
  · show ([row].foldl (processRow env) { films := [] }).films ++
      ([row].foldl (processRow env) { films := [] }).newFilms = _
    rw [List.foldl_cons, List.foldl_nil, processRow_new hid hne hc hfind homdb]
    show ([] : List Film) ++ (([] : List Film) ++ [(buildNewFilm env row id d).1]) = _
    rw [buildNewFilm_noToken htok]
    rfl
  · show ([row].foldl (processRow env) { films := [] }).changed = true
    rw [List.foldl_cons, List.foldl_nil, processRow_new hid hne hc hfind homdb]

/-- Environment for C1: Primary answers for the identifier, no Secondary
credential. -/
def envC1 : Env :=
  { omdbKey := some "k"
    tmdbToken := none
    omdb := fun i => if i = "tt0111161" then
        OmdbResp.ok { imdbID := some "tt0111161",
                      fields := [("title", "T"), ("director", "D")] }
      else OmdbResp.transportError
    tmdb := fun _ => none }

/-- Row for C1. -/
def rowC1 : Row :=
  { imdb_id := some "tt0111161"
    watch_date := some "2024-05-01"
    selected_by := some "andy"
    trophyPresent := true
    trophy_notes := some "won"
    cells := fun u =>
      if u = "andy" then
        { ratingPresent := true, rating := some "8",
          blurbPresent := true, blurb := some "good" }
      else { ratingPresent := true, blurbPresent := true } }

/-- C1 counterexample: in that very scenario the resulting record's
enrichment-completion flag is NOT true — the claim as stated fails. -/
theorem C1_flag_not_true_without_secondary :
    ¬ (∀ f ∈ (runPass envC1 [rowC1] []).films, f.tmdbFetched = some true) := by
  decide

/-- C1 witness for the amended theorem. -/
theorem C1_new_record_without_secondary_witness :
    (runPass envC1 [rowC1] []).films =
      [{ imdbID := some "tt0111161", fields := [("title", "T"), ("director", "D")],
         tmdbFetched := some false, movieClubInfo := some (initClub rowC1) }] ∧
    (runPass envC1 [rowC1] []).changed = true :=
  C1_new_record_without_secondary envC1 rowC1 "tt0111161"
    { imdbID := some "tt0111161", fields := [("title", "T"), ("director", "D")] }
    rfl (by decide) rfl (by decide)

/-- C2: the Secondary Provider is invoked on an existing record if and only
if the enrichment flag is not `True` (false or absent) and a credential is
configured; after any invocation the flag is `True`; and across two
consecutive passes in which every indexed record with the identifier already
carries the flag, the Secondary Provider is invoked zero times for that
identifier. -/
theorem C2_secondary_fetch_once :
    (∀ (env : Env) (id : String) (f : Film),
      ((tmdbStepExisting env id f).2 = true ↔
        (f.tmdbFetched ≠ some true ∧ pyTruthy env.tmdbToken = true))) ∧
    (∀ (env : Env) (row : Row) (id : String) (f : Film),
      ((existingStep env row id f).2 = true ↔
        (f.tmdbFetched ≠ some true ∧ pyTruthy env.tmdbToken = true))) ∧
    (∀ (env : Env) (id : String) (f : Film),
      (tmdbStepExisting env id f).2 = true →
      ((tmdbStepExisting env id f).1).tmdbFetched = some true) ∧
    (∀ (env : Env) (sheet : List Row) (films : List Film) (id : String),
      (∀ f ∈ films, f.imdbID = some id → f.tmdbFetched = some true) →
      (∃ f ∈ films, f.imdbID = some id) →
      id ∉ (runPass env sheet films).tmdbLog ∧
      id ∉ (runPass env sheet (runPass env sheet films).films).tmdbLog) := by
  refine ⟨tmdbStep_invoked_iff, existingStep_invoked_iff, ?_, ?_⟩
  · intro env id f h
    exact tmdbStep_invoked_flag h
  · intro env sheet films id hall hex
    by_cases ht : pyTruthy env.tmdbToken = true
    · obtain ⟨hlog1, hall1, hex1⟩ := runPass_no_invocation ht sheet hall hex
      obtain ⟨hlog2, _, _⟩ := runPass_no_invocation ht sheet hall1 hex1
      exact ⟨hlog1, hlog2⟩
    · have hf := Bool.eq_false_iff.mpr ht
      rw [runPass_tmdbLog_noToken hf, runPass_tmdbLog_noToken hf]
      exact ⟨List.not_mem_nil id, List.not_mem_nil id⟩

/-- Environment for the C2/C3 witnesses: a token is configured and OMDB
echoes the queried identifier. -/
def envEcho : Env :=
  { omdbKey := some "k"
    tmdbToken := some "t"
    omdb := fun i => OmdbResp.ok { imdbID := some i, fields := [("title", "T")] }
    tmdb := fun i => if i = "tt1" then some [("cinematographer", "X")] else none }

/-- Catalog with an already-enriched record for the C2 witness. -/
def filmsC2 : List Film :=
  [{ imdbID := some "tt1", fields := [("title", "T")], tmdbFetched := some true,
     movieClubInfo := some shellClub }]

/-- C2 witness: with the flag already true, two consecutive passes never
invoke the Secondary Provider for the record. -/
theorem C2_secondary_fetch_once_witness :
    "tt1" ∉ (runPass envEcho [rowMerge] filmsC2).tmdbLog ∧
    "tt1" ∉ (runPass envEcho [rowMerge]
      (runPass envEcho [rowMerge] filmsC2).films).tmdbLog :=
  C2_secondary_fetch_once.2.2.2 envEcho [rowMerge] filmsC2 "tt1"
    (by decide) (by decide)

/-- C3: running the pass twice in succession over the same sheet with the
same provider responses is idempotent — the second run reproduces the first
run's catalog exactly and detects no changes — provided the Primary Provider
is well-formed in that a successful payload echoes the queried identifier. -/
theorem C3_reconciliation_idempotent (env : Env) (sheet : List Row)
    (films : List Film)
    (hwf : ∀ i d, env.omdb i = OmdbResp.ok d → d.imdbID = some i) :
    (runPass env sheet (runPass env sheet films).films).films =
      (runPass env sheet films).films ∧
    (runPass env sheet (runPass env sheet films).films).changed = false :=
  runPass_idem env hwf sheet films

/-- C3 witness: a sheet with a new record, an update to an existing record
and a duplicate row, run twice from a concrete catalog. -/
theorem C3_reconciliation_idempotent_witness :
    (runPass envEcho [rowC1, rowMerge, rowC1] (runPass envEcho
        [rowC1, rowMerge, rowC1] filmsC2).films).films =
      (runPass envEcho [rowC1, rowMerge, rowC1] filmsC2).films ∧
    (runPass envEcho [rowC1, rowMerge, rowC1] (runPass envEcho
        [rowC1, rowMerge, rowC1] filmsC2).films).changed = false :=
  C3_reconciliation_idempotent envEcho [rowC1, rowMerge, rowC1] filmsC2
    (by
      intro i d h
      injection h with h2
      rw [← h2])

end FilmClub
